import Mathlib

/-!
Shallow embedding of the fork-alert subsystem of the AlephBFT repository
(crates `aleph-bft` / `aleph-bft-types`): the alert handler
(`consensus/src/alerts/mod.rs`), the alert service
(`consensus/src/alerts/service.rs`), the backup loader
(`consensus/src/runway/backup.rs`) and the alert-message codec.

Machine integers are modelled as `Nat`; where Rust wrapping arithmetic on a
fixed-width integer matters it is written out as arithmetic modulo `2^w`.
Hash maps are modelled as association lists with insert-at-front semantics
(lookup finds the newest binding, which is observationally the same as
`HashMap::insert` replacing the old value).
-/

/-- `NodeIndex` from `aleph-bft-types`: a small integer identifying a node. -/
abbrev NodeIndex := Nat

/-- `Round` from `aleph-bft-types` (`u16` in the source). -/
abbrev Round := Nat

/-- `SessionId` from `aleph-bft-types` (`u64` in the source). -/
abbrev SessionId := Nat

/-- A hash value produced by the generic `Hasher`. -/
abbrev Hash := Nat

/-- An opaque signature value; the signature scheme is generic in the source. -/
abbrev Sig := Nat

/-- Modelled from the spec: the control hash of a unit, a parents bitmask
(bit `i` set when node `i` is a parent) plus a combined hash.  The concrete
`ControlHash` type lives in the `units` module, which is not among the
provided sources; the spec describes it as "a control hash summarising
parents". -/
structure ControlHash where
  parentsMask : List Bool
  combinedHash : Hash
deriving DecidableEq, Repr

/-- The indices of the set bits of a parents bitmask
(`NodeSubset::elements` in the source). -/
def maskElements : List Bool → List NodeIndex
  | [] => []
  | b :: bs => (if b then [0] else []) ++ (maskElements bs).map (· + 1)

/-- Modelled from the spec: a DAG unit with `creator`, `round`, `session_id`,
a control hash and an opaque payload; the concrete `FullUnit` type lives in
the `units` module, which is not among the provided sources. -/
structure FullUnit where
  creator : NodeIndex
  round : Round
  sessionId : SessionId
  controlHash : ControlHash
  data : Nat
deriving DecidableEq, Repr

/-- The coordinate of a unit: `UnitCoord` is a (round, creator) pair. -/
abbrev UnitCoord := Round × NodeIndex

/-- `FullUnit::coord`. -/
def FullUnit.coord (u : FullUnit) : UnitCoord := (u.round, u.creator)

/-- `UncheckedSignedUnit`: a unit together with its creator's signature. -/
structure SignedUnit where
  unit : FullUnit
  signature : Sig
deriving DecidableEq, Repr

/-- `ForkProof`: an ordered pair of signed units. -/
abbrev ForkProof := SignedUnit × SignedUnit

/-- `Alert` from `alerts/mod.rs` (the lazily cached `hash` field is an
optimisation carrying no information and is dropped; it is `#[codec(skip)]`
in the source). -/
structure Alert where
  sender : NodeIndex
  proof : ForkProof
  legitUnits : List SignedUnit
deriving DecidableEq, Repr

/-- `Alert::forker`: the creator of the first unit of the proof. -/
def Alert.forker (a : Alert) : NodeIndex := a.proof.1.unit.creator

/-- Modelled from the spec: the generic crypto capabilities (`Hasher`,
`KeyBox`, `MultiKeychain`) the subsystem is polymorphic over.  `unitSigOk`
is `UncheckedSignedUnit::check` (verify the unit's signature against its
creator), `alertSigOk` is `UncheckedSigned::<Alert, _>::check` (verify
against the alert's sender, its `Index`), `signAlert` is `Signed::sign`
with the node's own key and `hashAlert` hashes the canonical encoding of an
alert. -/
structure Env where
  index : NodeIndex
  unitSigOk : FullUnit → Sig → Bool
  alertSigOk : Alert → Sig → Bool
  signAlert : Alert → Sig
  hashAlert : Alert → Hash

/-- Association-list lookup: the model of `HashMap::get`. -/
def lookupKey {α β : Type} [DecidableEq α] (k : α) : List (α × β) → Option β
  | [] => none
  | p :: m => if p.1 = k then some p.2 else lookupKey k m

/-- Association-list insert: the model of `HashMap::insert` (the new
binding shadows any older one). -/
def insertKey {α β : Type} [DecidableEq α] (k : α) (v : β) (m : List (α × β)) :
    List (α × β) :=
  (k, v) :: m

/-- The model of `HashMap::contains_key`. -/
def containsKey {α β : Type} [DecidableEq α] (k : α) (m : List (α × β)) : Bool :=
  (lookupKey k m).isSome

/-- The model of `HashMap::remove` (drops every binding of the key). -/
def eraseKey {α β : Type} [DecidableEq α] (k : α) (m : List (α × β)) :
    List (α × β) :=
  m.filter (fun p => p.1 ≠ k)

/-- The state of `Alerter` from `alerts/mod.rs`: session id, keychain, the
forker registry `known_forkers`, the alert cache `known_alerts` and the RMC
designation table `known_rmcs`. -/
structure AlerterState where
  sessionId : SessionId
  env : Env
  knownForkers : List (NodeIndex × ForkProof)
  knownAlerts : List (Hash × (Alert × Sig))
  knownRmcs : List ((NodeIndex × NodeIndex) × Hash)

/-- `Alerter::is_forker`. -/
def isForker (st : AlerterState) (forker : NodeIndex) : Bool :=
  containsKey forker st.knownForkers

/-- `Alerter::who_is_forking`: validity check of a fork proof, in source
order: both signatures verify, both units belong to the local session, the
units are not identical, same creator, same round. -/
def whoIsForking (st : AlerterState) (proof : ForkProof) : Option NodeIndex :=
  let u1 := proof.1
  let u2 := proof.2
  if ¬ (st.env.unitSigOk u1.unit u1.signature ∧ st.env.unitSigOk u2.unit u2.signature) then
    none
  else if u1.unit.sessionId ≠ st.sessionId ∨ u2.unit.sessionId ≠ st.sessionId then
    none
  else if u1.unit = u2.unit then
    none
  else if u1.unit.creator ≠ u2.unit.creator then
    none
  else if u1.unit.round ≠ u2.unit.round then
    none
  else
    some u1.unit.creator

/-- The loop body of `Alerter::correct_commitment`, with the accumulated
set of rounds made explicit. -/
def correctCommitmentAux (env : Env) (forker : NodeIndex) :
    List SignedUnit → List Round → Bool
  | [], _ => true
  | u :: us, rounds =>
    if ¬ env.unitSigOk u.unit u.signature then false
    else if u.unit.creator ≠ forker then false
    else if u.unit.round ∈ rounds then false
    else correctCommitmentAux env forker us (u.unit.round :: rounds)

/-- `Alerter::correct_commitment`: every unit signed, created by the
forker, rounds pairwise distinct. -/
def correctCommitment (st : AlerterState) (forker : NodeIndex)
    (units : List SignedUnit) : Bool :=
  correctCommitmentAux st.env forker units []

/-- `Alerter::rmc_alert`: register the alert in the RMC table under
`(alert.sender, forker)` and cache it in `known_alerts`; returns the hash. -/
def rmcAlert (st : AlerterState) (forker : NodeIndex) (alert : Alert) (sig : Sig) :
    AlerterState × Hash :=
  let hash := st.env.hashAlert alert
  ({ st with
      knownRmcs := insertKey (alert.sender, forker) hash st.knownRmcs
      knownAlerts := insertKey hash (alert, sig) st.knownAlerts },
   hash)

/-- `Recipient` from `aleph-bft-types`. -/
inductive Recipient
  | everyone
  | node (idx : NodeIndex)
deriving DecidableEq, Repr

/-- An RMC message (`aleph_bft_rmc::Message`), abstracted to what the
alerter observes of it: the hash it carries (`Message::hash`), whether it
is a complete multisignature (`Message::is_complete`, true exactly for the
multisigned variant) and an opaque signature payload. -/
structure RmcMsg where
  hash : Hash
  isComplete : Bool
  sigData : Nat
deriving DecidableEq, Repr

/-- `AlertMessage` from `alerts/mod.rs`, in declaration order:
`ForkAlert`, `RmcMessage`, `AlertRequest`. -/
inductive AlertMessage
  | forkAlert (alert : Alert) (sig : Sig)
  | rmcMessage (sender : NodeIndex) (msg : RmcMsg)
  | alertRequest (sender : NodeIndex) (hash : Hash)
deriving DecidableEq, Repr

/-- `ForkingNotification` from `alerts/mod.rs`. -/
inductive ForkingNotification
  | forker (proof : ForkProof)
  | units (us : List SignedUnit)
deriving DecidableEq, Repr

/-- `AlerterResponse` from `alerts/mod.rs`. -/
inductive AlerterResponse
  | forkAlert (alert : Alert) (sig : Sig) (recipient : Recipient)
  | forkResponse (n : Option ForkingNotification) (h : Hash)
  | alertRequest (h : Hash) (recipient : Recipient)
  | rmcMessage (msg : RmcMsg)
deriving DecidableEq, Repr

/-- `Alerter::on_own_alert`: record the forker, sign the alert, register
the RMC, return the broadcast triple. -/
def onOwnAlert (st : AlerterState) (alert : Alert) :
    AlerterState × (AlertMessage × Recipient × Hash) :=
  let forker := alert.forker
  let st1 := { st with knownForkers := insertKey forker alert.proof st.knownForkers }
  let sig := st.env.signAlert alert
  let p := rmcAlert st1 forker alert sig
  (p.1, (AlertMessage.forkAlert alert sig, Recipient.everyone, p.2))

/-- `Alerter::on_network_alert`. -/
def onNetworkAlert (st : AlerterState) (alert : Alert) (sig : Sig) :
    AlerterState × Option (Option ForkingNotification × Hash) :=
  if ¬ st.env.alertSigOk alert sig then (st, none)
  else
    match whoIsForking st alert.proof with
    | none => (st, none)
    | some forker =>
      if containsKey (alert.sender, forker) st.knownRmcs then
        ({ st with
            knownAlerts := insertKey (st.env.hashAlert alert) (alert, sig) st.knownAlerts },
         none)
      else
        let propagate : Option ForkingNotification :=
          if isForker st forker then none
          else some (ForkingNotification.forker alert.proof)
        let st1 :=
          if isForker st forker then st
          else { st with knownForkers := insertKey forker alert.proof st.knownForkers }
        let p := rmcAlert st1 forker alert sig
        (p.1, some (propagate, p.2))

/-- `Alerter::on_message`. -/
def onMessage (st : AlerterState) (m : AlertMessage) :
    AlerterState × Option AlerterResponse :=
  match m with
  | .forkAlert alert sig =>
    let p := onNetworkAlert st alert sig
    (p.1, p.2.map (fun r => AlerterResponse.forkResponse r.1 r.2))
  | .rmcMessage sender msg =>
    match lookupKey msg.hash st.knownAlerts with
    | some a =>
      let alertId := (a.1.sender, a.1.forker)
      if lookupKey alertId st.knownRmcs = some msg.hash ∨ msg.isComplete then
        (st, some (AlerterResponse.rmcMessage msg))
      else
        (st, none)
    | none => (st, some (AlerterResponse.alertRequest msg.hash (Recipient.node sender)))
  | .alertRequest node hash =>
    match lookupKey hash st.knownAlerts with
    | some a => (st, some (AlerterResponse.forkAlert a.1 a.2 (Recipient.node node)))
    | none => (st, none)

/-- `Alerter::alert_confirmed`: look the alert up by its multisigned hash,
make its hash the canonical RMC entry for `(sender, forker)`, then release
`Units(legit_units)` when the commitment is correct. -/
def alertConfirmed (st : AlerterState) (msHash : Hash) :
    AlerterState × Option ForkingNotification :=
  match lookupKey msHash st.knownAlerts with
  | none => (st, none)
  | some a =>
    let alert := a.1
    let forker := alert.proof.1.unit.creator
    let st1 := { st with
      knownRmcs := insertKey (alert.sender, forker) (st.env.hashAlert alert) st.knownRmcs }
    if ¬ correctCommitment st1 forker alert.legitUnits then (st1, none)
    else (st1, some (ForkingNotification.units alert.legitUnits))

/-- A completed multisignature on a hash (`Multisigned<H::Hash, MK>`),
abstracted to the hash it signs (`as_signable`). -/
abbrev Multisigned := Hash

/-- `AlertData` from `runway/backup.rs` / `alerts/service.rs`. -/
inductive AlertData
  | ownAlert (alert : Alert)
  | networkAlert (alert : Alert)
  | multisignedHash (ms : Multisigned)
deriving DecidableEq, Repr

/-- The state of `Service` from `alerts/service.rs`.  The handler is the
`Alerter` of `alerts/mod.rs` (the separate `handler` module is not among
the provided sources; `alerts/mod.rs` contains the same decision logic and
stands in for it). -/
structure ServiceState where
  handler : AlerterState
  ownAlertResponses : List (Hash × (AlertMessage × Recipient × Hash))
  networkAlertResponses : List (Hash × (Option ForkingNotification × Hash))
  multisignedNotifications : List (Hash × ForkingNotification)

/-- The events the service's `run` loop multiplexes over. -/
inductive ServiceEvent
  | fromNetwork (m : AlertMessage)
  | fromRunway (alert : Alert)
  | rmcMultisigned (ms : Multisigned)
  | rmcHashOut (m : RmcMsg)
  | fromBackup (d : AlertData)
deriving DecidableEq, Repr

/-- The outputs the service emits on its outgoing channels. -/
inductive ServiceOut
  | toNetwork (m : AlertMessage) (r : Recipient)
  | toBackup (d : AlertData)
  | toRmcStart (h : Hash)
  | toRmcMessage (m : RmcMsg)
  | notify (n : ForkingNotification)
deriving DecidableEq, Repr

/-- One iteration of `Service::run`: dispatch one event, returning the new
state and the outputs emitted during that iteration, in order
(`handle_message_from_network`, `handle_alert_from_runway`,
`handle_multisigned`, `rmc_message_to_network`,
`handle_data_from_backup`). -/
def serviceStep (st : ServiceState) (e : ServiceEvent) :
    ServiceState × List ServiceOut :=
  match e with
  | .fromNetwork m =>
    match m with
    | .forkAlert alert sig =>
      let p := onNetworkAlert st.handler alert sig
      match p.2 with
      | some resp =>
        ({ st with
            handler := p.1
            networkAlertResponses :=
              insertKey (st.handler.env.hashAlert alert) resp st.networkAlertResponses },
         [ServiceOut.toBackup (AlertData.networkAlert alert)])
      | none => ({ st with handler := p.1 }, [])
    | .rmcMessage sender msg =>
      let p := onMessage st.handler (AlertMessage.rmcMessage sender msg)
      match p.2 with
      | some (AlerterResponse.rmcMessage m2) =>
        ({ st with handler := p.1 }, [ServiceOut.toRmcMessage m2])
      | some (AlerterResponse.alertRequest h rcpt) =>
        ({ st with handler := p.1 },
         [ServiceOut.toNetwork (AlertMessage.alertRequest st.handler.env.index h) rcpt])
      | _ => ({ st with handler := p.1 }, [])
    | .alertRequest node hash =>
      let p := onMessage st.handler (AlertMessage.alertRequest node hash)
      match p.2 with
      | some (AlerterResponse.forkAlert alert sig rcpt) =>
        ({ st with handler := p.1 },
         [ServiceOut.toNetwork (AlertMessage.forkAlert alert sig) rcpt])
      | _ => ({ st with handler := p.1 }, [])
  | .fromRunway alert =>
    let p := onOwnAlert st.handler alert
    ({ st with
        handler := p.1
        ownAlertResponses :=
          insertKey (st.handler.env.hashAlert alert) p.2 st.ownAlertResponses },
     [ServiceOut.toBackup (AlertData.ownAlert alert)])
  | .rmcMultisigned ms =>
    let p := alertConfirmed st.handler ms
    match p.2 with
    | some n =>
      ({ st with
          handler := p.1
          multisignedNotifications := insertKey ms n st.multisignedNotifications },
       [ServiceOut.toBackup (AlertData.multisignedHash ms)])
    | none => ({ st with handler := p.1 }, [])
  | .rmcHashOut m =>
    (st, [ServiceOut.toNetwork (AlertMessage.rmcMessage st.handler.env.index m) Recipient.everyone])
  | .fromBackup d =>
    match d with
    | .ownAlert alert =>
      match lookupKey (st.handler.env.hashAlert alert) st.ownAlertResponses with
      | some r =>
        ({ st with
            ownAlertResponses :=
              eraseKey (st.handler.env.hashAlert alert) st.ownAlertResponses },
         [ServiceOut.toNetwork r.1 r.2.1, ServiceOut.toRmcStart r.2.2])
      | none => (st, [])
    | .networkAlert alert =>
      match lookupKey (st.handler.env.hashAlert alert) st.networkAlertResponses with
      | some r =>
        ({ st with
            networkAlertResponses :=
              eraseKey (st.handler.env.hashAlert alert) st.networkAlertResponses },
         ServiceOut.toRmcStart r.2 ::
           (match r.1 with
            | some n => [ServiceOut.notify n]
            | none => []))
      | none => (st, [])
    | .multisignedHash ms =>
      match lookupKey ms st.multisignedNotifications with
      | some n =>
        ({ st with multisignedNotifications := eraseKey ms st.multisignedNotifications },
         [ServiceOut.notify n])
      | none => (st, [])

/-- Run the service over a list of events, collecting the outputs of each
iteration. -/
def serviceRun (st : ServiceState) : List ServiceEvent → List (List ServiceOut)
  | [] => []
  | e :: es =>
    let p := serviceStep st e
    p.2 :: serviceRun p.1 es

/-- `Service::new`: the three pending-response tables start out empty. -/
def initServiceState (a : AlerterState) : ServiceState :=
  { handler := a
    ownAlertResponses := []
    networkAlertResponses := []
    multisignedNotifications := [] }

/-- `BackupItem` from `runway/backup.rs`. -/
inductive BackupItem
  | unit (u : SignedUnit)
  | alertData (d : AlertData)
deriving DecidableEq, Repr

/-- The `Unit` records of a backup log, in order
(the `partition_map` in `BackupLoader::run`). -/
def itemsUnits (items : List BackupItem) : List SignedUnit :=
  items.filterMap (fun i => match i with
    | .unit u => some u
    | .alertData _ => none)

/-- `IncorrectBackupError` from `runway/backup.rs`. -/
inductive IncorrectBackupError
  | inconsistentData (coord : UnitCoord)
  | wrongSession (coord : UnitCoord) (expected got : SessionId)
deriving DecidableEq, Repr

/-- The loop of `BackupLoader::verify_units` with the accumulated
`already_loaded_coords` set made explicit.  The parent coordinate is
`coord.round() - 1` on the `u16` type `Round`, i.e. subtraction modulo
`2^16` (the release-build wrapping semantics), written out as
`(round + 65535) % 65536`. -/
def verifyUnitsAux (sid : SessionId) :
    List UnitCoord → List SignedUnit → Except IncorrectBackupError Unit
  | _, [] => .ok ()
  | seen, u :: us =>
    let fu := u.unit
    let coord : UnitCoord := fu.coord
    if fu.sessionId ≠ sid then
      .error (.wrongSession coord sid fu.sessionId)
    else if ∀ pid ∈ maskElements fu.controlHash.parentsMask,
        ((fu.round + 65535) % 65536, pid) ∈ seen then
      verifyUnitsAux sid (coord :: seen) us
    else
      .error (.inconsistentData coord)

/-- `BackupLoader::verify_units`. -/
def verifyUnits (sid : SessionId) (units : List SignedUnit) :
    Except IncorrectBackupError Unit :=
  verifyUnitsAux sid [] units

/-- The maximum of a list of rounds (`Iterator::max`). -/
def listMax : List Nat → Option Nat
  | [] => none
  | r :: rs =>
    match listMax rs with
    | none => some r
    | some m => some (max r m)

/-- `next_round_backup` in `BackupLoader::run`: one plus the maximal round
of a loaded unit created by the local node, or `0` when there is none.
The increment `round + 1` is on the `u16` type `Round`, i.e. addition
modulo `2^16` (the release-build wrapping semantics), written out as
`(m + 1) % 65536`: a maximal own round of `65535` wraps to `0`. -/
def nextRoundBackup (index : NodeIndex) (units : List SignedUnit) : Round :=
  match listMax ((units.filter (fun u => u.unit.creator = index)).map
      (fun u => u.unit.round)) with
  | none => 0
  | some m => (m + 1) % 65536

/-- The starting-round decision of `BackupLoader::run` on successfully
decoded items: `None` when verification fails, `None` when the backup is
behind the collection round, and `Some next_round_backup` otherwise
(including the warn-but-continue case `next_round_collection <
next_round_backup`). -/
def backupStartingRound (sid : SessionId) (index : NodeIndex)
    (items : List BackupItem) (nextRoundCollection : Round) : Option Round :=
  match verifyUnits sid (itemsUnits items) with
  | .error _ => none
  | .ok _ =>
    if nextRoundBackup index (itemsUnits items) < nextRoundCollection then none
    else some (nextRoundBackup index (itemsUnits items))

/-- Little-endian fixed-width encoding of an unsigned integer (SCALE's
encoding of `u16`/`u32`/`u64`); first argument is the width in bytes. -/
def encodeNatLE : Nat → Nat → List Nat
  | 0, _ => []
  | w + 1, n => n % 256 :: encodeNatLE w (n / 256)

/-- Little-endian fixed-width decoding; returns the value and the rest of
the input. -/
def decodeNatLE : Nat → List Nat → Option (Nat × List Nat)
  | 0, bs => some (0, bs)
  | _ + 1, [] => none
  | w + 1, b :: bs => (decodeNatLE w bs).map (fun p => (b + 256 * p.1, p.2))

/-- Modelled from the spec: SCALE compact length encoding (the external
`parity-scale-codec` library used by the repository's derived codecs),
modes 0-2, covering lengths below `2^30`. -/
def compactEnc (n : Nat) : List Nat :=
  if n < 64 then [n * 4]
  else if n < 16384 then encodeNatLE 2 (n * 4 + 1)
  else encodeNatLE 4 (n * 4 + 2)

/-- Modelled from the spec: SCALE compact decoding, modes 0-2. -/
def compactDec : List Nat → Option (Nat × List Nat)
  | [] => none
  | b :: rest =>
    if b % 4 = 0 then some (b / 4, rest)
    else if b % 4 = 1 then
      (decodeNatLE 1 rest).map (fun p => ((b + 256 * p.1) / 4, p.2))
    else if b % 4 = 2 then
      (decodeNatLE 3 rest).map (fun p => ((b + 256 * p.1) / 4, p.2))
    else none

/-- SCALE encoding of a `bool`. -/
def encodeBool (b : Bool) : List Nat := [if b then 1 else 0]

/-- SCALE decoding of a `bool`. -/
def decodeBool : List Nat → Option (Bool × List Nat)
  | [] => none
  | b :: rest =>
    if b = 0 then some (false, rest)
    else if b = 1 then some (true, rest)
    else none

/-- Decode a fixed number of items with a given item decoder. -/
def decodeMany {α : Type} (dec1 : List Nat → Option (α × List Nat)) :
    Nat → List Nat → Option (List α × List Nat)
  | 0, bs => some ([], bs)
  | n + 1, bs =>
    (dec1 bs).bind (fun p =>
      (decodeMany dec1 n p.2).map (fun q => (p.1 :: q.1, q.2)))

/-- SCALE encoding of a `Vec`: compact length followed by the items. -/
def encodeList {α : Type} (enc1 : α → List Nat) (l : List α) : List Nat :=
  compactEnc l.length ++ (l.map enc1).flatten

/-- SCALE decoding of a `Vec`. -/
def decodeList {α : Type} (dec1 : List Nat → Option (α × List Nat))
    (bs : List Nat) : Option (List α × List Nat) :=
  (compactDec bs).bind (fun p => decodeMany dec1 p.1 p.2)

/-- Encoding of a `FullUnit` in derived field order: creator (`u64`),
round (`u16`), parents mask (`Vec<bool>`), combined hash (8 bytes), data
(`u32`, the mock payload), session id (`u64`). -/
def encodeUnit (u : FullUnit) : List Nat :=
  encodeNatLE 8 u.creator ++ encodeNatLE 2 u.round ++
    encodeList encodeBool u.controlHash.parentsMask ++
    encodeNatLE 8 u.controlHash.combinedHash ++
    encodeNatLE 4 u.data ++ encodeNatLE 8 u.sessionId

/-- Decoding of a `FullUnit`. -/
def decodeUnit (bs : List Nat) : Option (FullUnit × List Nat) :=
  (decodeNatLE 8 bs).bind (fun p1 =>
  (decodeNatLE 2 p1.2).bind (fun p2 =>
  (decodeList decodeBool p2.2).bind (fun p3 =>
  (decodeNatLE 8 p3.2).bind (fun p4 =>
  (decodeNatLE 4 p4.2).bind (fun p5 =>
  (decodeNatLE 8 p5.2).map (fun p6 =>
    (⟨p1.1, p2.1, p6.1, ⟨p3.1, p4.1⟩, p5.1⟩, p6.2)))))))

/-- Encoding of an `UncheckedSignedUnit`: the unit then its signature. -/
def encodeSignedUnit (u : SignedUnit) : List Nat :=
  encodeUnit u.unit ++ encodeNatLE 8 u.signature

/-- Decoding of an `UncheckedSignedUnit`. -/
def decodeSignedUnit (bs : List Nat) : Option (SignedUnit × List Nat) :=
  (decodeUnit bs).bind (fun p1 =>
  (decodeNatLE 8 p1.2).map (fun p2 => (⟨p1.1, p2.1⟩, p2.2)))

/-- Encoding of an `Alert` (derived; the `hash` field is `#[codec(skip)]`):
sender, the two proof units, the legit units. -/
def encodeAlert (a : Alert) : List Nat :=
  encodeNatLE 8 a.sender ++ encodeSignedUnit a.proof.1 ++
    encodeSignedUnit a.proof.2 ++ encodeList encodeSignedUnit a.legitUnits

/-- Decoding of an `Alert`. -/
def decodeAlert (bs : List Nat) : Option (Alert × List Nat) :=
  (decodeNatLE 8 bs).bind (fun p1 =>
  (decodeSignedUnit p1.2).bind (fun p2 =>
  (decodeSignedUnit p2.2).bind (fun p3 =>
  (decodeList decodeSignedUnit p3.2).map (fun p4 =>
    (⟨p1.1, (p2.1, p3.1), p4.1⟩, p4.2)))))

/-- Modelled from the spec: encoding of an RMC message, a tag for the
partial/complete variant followed by the hash and the opaque signature
payload (the concrete `aleph_bft_rmc::Message` type is external to the
repository). -/
def encodeRmcMsg (m : RmcMsg) : List Nat :=
  (if m.isComplete then 1 else 0) :: encodeNatLE 8 m.hash ++ encodeNatLE 8 m.sigData

/-- Modelled from the spec: decoding of an RMC message. -/
def decodeRmcMsg : List Nat → Option (RmcMsg × List Nat)
  | [] => none
  | t :: rest =>
    if t = 0 ∨ t = 1 then
      (decodeNatLE 8 rest).bind (fun p1 =>
      (decodeNatLE 8 p1.2).map (fun p2 => (⟨p1.1, t = 1, p2.1⟩, p2.2)))
    else none

/-- Encoding of an `AlertMessage`: a tag byte in declaration order
(`ForkAlert` = 0, `RmcMessage` = 1, `AlertRequest` = 2) followed by the
variant's fields. -/
def encodeAlertMessage : AlertMessage → List Nat
  | .forkAlert alert sig => 0 :: (encodeAlert alert ++ encodeNatLE 8 sig)
  | .rmcMessage sender msg => 1 :: (encodeNatLE 8 sender ++ encodeRmcMsg msg)
  | .alertRequest sender hash => 2 :: (encodeNatLE 8 sender ++ encodeNatLE 8 hash)

/-- Decoding of an `AlertMessage`. -/
def decodeAlertMessage : List Nat → Option (AlertMessage × List Nat)
  | [] => none
  | t :: rest =>
    if t = 0 then
      (decodeAlert rest).bind (fun p1 =>
      (decodeNatLE 8 p1.2).map (fun p2 => (AlertMessage.forkAlert p1.1 p2.1, p2.2)))
    else if t = 1 then
      (decodeNatLE 8 rest).bind (fun p1 =>
      (decodeRmcMsg p1.2).map (fun p2 => (AlertMessage.rmcMessage p1.1 p2.1, p2.2)))
    else if t = 2 then
      (decodeNatLE 8 rest).bind (fun p1 =>
      (decodeNatLE 8 p1.2).map (fun p2 => (AlertMessage.alertRequest p1.1 p2.1, p2.2)))
    else none

/-- The numeric fields of a unit fit the Rust integer types they are
declared with, and the parents mask fits a compact length. -/
def wfUnit (u : FullUnit) : Prop :=
  u.creator < 2 ^ 64 ∧ u.round < 2 ^ 16 ∧ u.sessionId < 2 ^ 64 ∧
    u.controlHash.combinedHash < 2 ^ 64 ∧ u.data < 2 ^ 32 ∧
    u.controlHash.parentsMask.length < 2 ^ 30

instance : DecidablePred wfUnit := fun u => by
  unfold wfUnit
  infer_instance

/-- Well-formedness of a signed unit. -/
def wfSignedUnit (u : SignedUnit) : Prop :=
  wfUnit u.unit ∧ u.signature < 2 ^ 64

instance : DecidablePred wfSignedUnit := fun u => by
  unfold wfSignedUnit
  infer_instance

/-- Well-formedness of an alert. -/
def wfAlert (a : Alert) : Prop :=
  a.sender < 2 ^ 64 ∧ wfSignedUnit a.proof.1 ∧ wfSignedUnit a.proof.2 ∧
    a.legitUnits.length < 2 ^ 30 ∧ ∀ u ∈ a.legitUnits, wfSignedUnit u

instance : DecidablePred wfAlert := fun a => by
  unfold wfAlert
  infer_instance

/-- Well-formedness of an RMC message. -/
def wfRmcMsg (m : RmcMsg) : Prop :=
  m.hash < 2 ^ 64 ∧ m.sigData < 2 ^ 64

instance : DecidablePred wfRmcMsg := fun m => by
  unfold wfRmcMsg
  infer_instance

/-- Well-formedness of an alert message: every machine-integer component
fits the width of its Rust type. -/
def wfAlertMessage : AlertMessage → Prop
  | .forkAlert alert sig => wfAlert alert ∧ sig < 2 ^ 64
  | .rmcMessage sender msg => sender < 2 ^ 64 ∧ wfRmcMsg msg
  | .alertRequest sender hash => sender < 2 ^ 64 ∧ hash < 2 ^ 64

instance : DecidablePred wfAlertMessage := fun m => by
  cases m <;> (unfold wfAlertMessage; infer_instance)

/-- A concrete keychain in the style of the `aleph-bft-mock` crate: a
signature is valid exactly when it names the signer, the local node has
index 0, and the hash of an alert is an arbitrary concrete function of its
content. -/
def mockEnv : Env where
  index := 0
  unitSigOk := fun u s => s == u.creator
  alertSigOk := fun a s => s == a.sender
  signAlert := fun _ => 0
  hashAlert := fun a => 1000 + a.sender + 10 * a.legitUnits.length

/-- An empty control hash for concrete test units. -/
def emptyCH : ControlHash := ⟨[], 0⟩

/-- A concrete unit by creator 6 at round 0 of session 0. -/
def unitA : FullUnit := ⟨6, 0, 0, emptyCH, 0⟩

/-- A second concrete unit at the same coordinate with different data. -/
def unitB : FullUnit := ⟨6, 0, 0, emptyCH, 1⟩

/-- A concrete unit by creator 6 at round 1 of session 99. -/
def unitC : FullUnit := ⟨6, 1, 99, emptyCH, 0⟩

/-- `unitA`, correctly signed under `mockEnv`. -/
def suA : SignedUnit := ⟨unitA, 6⟩

/-- `unitB`, correctly signed under `mockEnv`. -/
def suB : SignedUnit := ⟨unitB, 6⟩

/-- `unitC`, correctly signed under `mockEnv`. -/
def suC : SignedUnit := ⟨unitC, 6⟩

/-- A concrete fork proof: two distinct units by creator 6 at round 0. -/
def proofAB : ForkProof := (suA, suB)

/-- A concrete alert by sender 5 legitimising `suC` (a unit of session 99). -/
def alertC : Alert := ⟨5, proofAB, [suC]⟩

/-- A concrete alert by sender 5 with no legit units. -/
def alertE : Alert := ⟨5, proofAB, []⟩

/-- An alerter state of session 0 that knows `alertC`. -/
def stC : AlerterState :=
  ⟨0, mockEnv, [], [(mockEnv.hashAlert alertC, (alertC, 5))], []⟩

/-- An alerter state of session 0 that knows `alertE`. -/
def stE : AlerterState :=
  ⟨0, mockEnv, [], [(mockEnv.hashAlert alertE, (alertE, 5))], []⟩

/-- A fresh alerter state of session 0 under `mockEnv`. -/
def stEmpty : AlerterState := ⟨0, mockEnv, [], [], []⟩

/-- Maximum of two optional naturals (`none` is the identity); used to
state how `listMax` splits over appends. -/
def oMax : Option Nat → Option Nat → Option Nat
  | none, b => b
  | some x, none => some x
  | some x, some y => some (max x y)

/-- The `already_loaded_coords` set accumulated by
`BackupLoader::verify_units` after processing a list of units. -/
def seenAfter (seen : List UnitCoord) : List SignedUnit → List UnitCoord
  | [] => seen
  | u :: us => seenAfter (u.unit.coord :: seen) us

/-- Invariant of the service state: no pending network-alert response
carries a `Units` notification (`on_network_alert` only ever produces
`Forker` notifications). -/
def netRespOk (st : ServiceState) : Prop :=
  ∀ k mn hh, lookupKey k st.networkAlertResponses = some (mn, hh) →
    ∀ us, mn ≠ some (ForkingNotification.units us)

theorem correctCommitmentAux_iff (env : Env) (forker : NodeIndex) :
    ∀ (us : List SignedUnit) (rounds : List Round),
      correctCommitmentAux env forker us rounds = true ↔
        ((∀ u ∈ us, env.unitSigOk u.unit u.signature = true ∧ u.unit.creator = forker) ∧
          (us.map (fun u => u.unit.round)).Nodup ∧
          (∀ u ∈ us, u.unit.round ∉ rounds)) := by
  intro us
  induction us with
  | nil => intro rounds; simp [correctCommitmentAux]
  | cons u us ih =>
    intro rounds
    by_cases hs : env.unitSigOk u.unit u.signature = true
    · by_cases hc : u.unit.creator = forker
      · by_cases hr : u.unit.round ∈ rounds
        · have hL : correctCommitmentAux env forker (u :: us) rounds = false := by
            simp [correctCommitmentAux, hs, hc, hr]
          rw [hL]
          refine iff_of_false (by simp) ?_
          rintro ⟨-, -, hnin⟩
          exact (hnin u (List.mem_cons_self _ _)) hr
        · have hL : correctCommitmentAux env forker (u :: us) rounds =
              correctCommitmentAux env forker us (u.unit.round :: rounds) := by
            simp [correctCommitmentAux, hs, hc, hr]
          rw [hL, ih]
          constructor
          · rintro ⟨hall, hnd, hnin⟩
            refine ⟨?_, ?_, ?_⟩
            · intro v hv
              rcases List.mem_cons.mp hv with h | h
              · exact ⟨h ▸ hs, h ▸ hc⟩
              · exact hall v h
            · rw [List.map_cons, List.nodup_cons]
              refine ⟨?_, hnd⟩
              intro hmem
              rcases List.mem_map.mp hmem with ⟨v, hv, hveq⟩
              exact (hnin v hv) (by rw [hveq]; exact List.mem_cons_self _ _)
            · intro v hv
              rcases List.mem_cons.mp hv with h | h
              · rw [h]; exact hr
              · intro hmem
                exact (hnin v h) (List.mem_cons_of_mem _ hmem)
          · rintro ⟨hall, hnd, hnin⟩
            rw [List.map_cons, List.nodup_cons] at hnd
            refine ⟨fun v hv => hall v (List.mem_cons_of_mem _ hv), hnd.2, ?_⟩
            intro v hv hmem
            rcases List.mem_cons.mp hmem with h | h
            · exact hnd.1 (h ▸ List.mem_map.mpr ⟨v, hv, rfl⟩)
            · exact (hnin v (List.mem_cons_of_mem _ hv)) h
      · have hL : correctCommitmentAux env forker (u :: us) rounds = false := by
          simp [correctCommitmentAux, hs, hc]
        rw [hL]
        refine iff_of_false (by simp) ?_
        rintro ⟨hall, -, -⟩
        exact hc (hall u (List.mem_cons_self _ _)).2
    · have hL : correctCommitmentAux env forker (u :: us) rounds = false := by
        simp [correctCommitmentAux, hs]
      rw [hL]
      refine iff_of_false (by simp) ?_
      rintro ⟨hall, -, -⟩
      exact hs (hall u (List.mem_cons_self _ _)).1

/-- C3: `who_is_forking(proof)` returns `Some(creator)` exactly when both
units are correctly signed, both carry the local session id, the units are
not identical, and they share creator and round; on any failure it returns
`None`, a proof made of the same unit twice is rejected, and
`on_network_alert` then rejects the alert with no state change. -/
theorem whoIsForking_spec (st : AlerterState) :
    (∀ p c, whoIsForking st p = some c ↔
      (st.env.unitSigOk p.1.unit p.1.signature = true ∧
       st.env.unitSigOk p.2.unit p.2.signature = true ∧
       p.1.unit.sessionId = st.sessionId ∧ p.2.unit.sessionId = st.sessionId ∧
       p.1.unit ≠ p.2.unit ∧ p.1.unit.creator = p.2.unit.creator ∧
       p.1.unit.round = p.2.unit.round ∧ c = p.1.unit.creator)) ∧
    (∀ u, whoIsForking st (u, u) = none) ∧
    (∀ alert sig, whoIsForking st alert.proof = none →
      onNetworkAlert st alert sig = (st, none)) := by
  have hmain : ∀ p c, whoIsForking st p = some c ↔
      (st.env.unitSigOk p.1.unit p.1.signature = true ∧
       st.env.unitSigOk p.2.unit p.2.signature = true ∧
       p.1.unit.sessionId = st.sessionId ∧ p.2.unit.sessionId = st.sessionId ∧
       p.1.unit ≠ p.2.unit ∧ p.1.unit.creator = p.2.unit.creator ∧
       p.1.unit.round = p.2.unit.round ∧ c = p.1.unit.creator) := by
    intro p c
    by_cases hA : st.env.unitSigOk p.1.unit p.1.signature = true
    · by_cases hB : st.env.unitSigOk p.2.unit p.2.signature = true
      · by_cases hs1 : p.1.unit.sessionId = st.sessionId
        · by_cases hs2 : p.2.unit.sessionId = st.sessionId
          · by_cases heq : p.1.unit = p.2.unit
            · have hL : whoIsForking st p = none := by
                simp [whoIsForking, hA, hB, hs1, hs2, heq]
              rw [hL]
              refine iff_of_false (by simp) ?_
              rintro ⟨-, -, -, -, hne, -⟩
              exact hne heq
            · by_cases hcr : p.1.unit.creator = p.2.unit.creator
              · by_cases hrd : p.1.unit.round = p.2.unit.round
                · have hL : whoIsForking st p = some p.1.unit.creator := by
                    simp [whoIsForking, hA, hB, hs1, hs2, heq, hcr, hrd]
                  rw [hL]
                  simp only [Option.some_inj]
                  constructor
                  · rintro rfl
                    exact ⟨hA, hB, hs1, hs2, heq, hcr, hrd, rfl⟩
                  · rintro ⟨-, -, -, -, -, -, -, rfl⟩
                    rfl
                · have hL : whoIsForking st p = none := by
                    simp [whoIsForking, hA, hB, hs1, hs2, heq, hcr, hrd]
                  rw [hL]
                  refine iff_of_false (by simp) ?_
                  rintro ⟨-, -, -, -, -, -, hr, -⟩
                  exact hrd hr
              · have hL : whoIsForking st p = none := by
                  simp [whoIsForking, hA, hB, hs1, hs2, heq, hcr]
                rw [hL]
                refine iff_of_false (by simp) ?_
                rintro ⟨-, -, -, -, -, hc2, -⟩
                exact hcr hc2
          · have hL : whoIsForking st p = none := by
              simp [whoIsForking, hA, hB, hs2]
            rw [hL]
            refine iff_of_false (by simp) ?_
            rintro ⟨-, -, -, hss, -⟩
            exact hs2 hss
        · have hL : whoIsForking st p = none := by
            simp [whoIsForking, hA, hB, hs1]
          rw [hL]
          refine iff_of_false (by simp) ?_
          rintro ⟨-, -, hss, -⟩
          exact hs1 hss
      · have hL : whoIsForking st p = none := by
          simp [whoIsForking, hB]
        rw [hL]
        refine iff_of_false (by simp) ?_
        rintro ⟨-, hsB, -⟩
        exact hB hsB
    · have hL : whoIsForking st p = none := by
        simp [whoIsForking, hA]
      rw [hL]
      refine iff_of_false (by simp) ?_
      rintro ⟨hsA, -⟩
      exact hA hsA
  refine ⟨hmain, ?_, ?_⟩
  · intro u
    cases hw : whoIsForking st (u, u) with
    | none => rfl
    | some c =>
      have := (hmain (u, u) c).mp hw
      exact absurd rfl this.2.2.2.2.1
  · intro alert sig h
    unfold onNetworkAlert
    by_cases hs : st.env.alertSigOk alert sig = true <;> simp [hs, h]

/-- Closed instance of `whoIsForking_spec`: a duplicated unit is rejected
and the corresponding network alert changes nothing. -/
theorem whoIsForking_spec_witness :
    whoIsForking stEmpty (suA, suA) = none ∧
    onNetworkAlert stEmpty ⟨5, (suA, suA), []⟩ 5 = (stEmpty, none) :=
  ⟨(whoIsForking_spec stEmpty).2.1 suA,
   (whoIsForking_spec stEmpty).2.2 ⟨5, (suA, suA), []⟩ 5
     ((whoIsForking_spec stEmpty).2.1 suA)⟩

/-- C5: for an RMC message carrying hash `h` from sender `s`: unknown hash
gives an `AlertRequest(h, Node(s))`; known hash with matching RMC entry or
a complete multisignature is passed through to the RMC engine; known hash
with a different current entry and an incomplete message is dropped with
no response; the state never changes. -/
theorem onMessage_rmc_spec (st : AlerterState) (s : NodeIndex) (m : RmcMsg) :
    (lookupKey m.hash st.knownAlerts = none →
      onMessage st (AlertMessage.rmcMessage s m) =
        (st, some (AlerterResponse.alertRequest m.hash (Recipient.node s)))) ∧
    (∀ a, lookupKey m.hash st.knownAlerts = some a →
      ((lookupKey (a.1.sender, a.1.forker) st.knownRmcs = some m.hash ∨
          m.isComplete = true) →
        onMessage st (AlertMessage.rmcMessage s m) =
          (st, some (AlerterResponse.rmcMessage m))) ∧
      (lookupKey (a.1.sender, a.1.forker) st.knownRmcs ≠ some m.hash →
        m.isComplete = false →
        onMessage st (AlertMessage.rmcMessage s m) = (st, none))) := by
  constructor
  · intro h
    simp [onMessage, h]
  · intro a h
    constructor
    · intro hcond
      simp only [onMessage, h]
      rw [if_pos hcond]
    · intro hne hcomp
      simp only [onMessage, h]
      rw [if_neg (by simp [hne, hcomp])]

/-- Closed instance of `onMessage_rmc_spec`: an RMC message about an
unknown hash triggers an alert request to its sender. -/
theorem onMessage_rmc_spec_witness :
    onMessage stEmpty (AlertMessage.rmcMessage 2 ⟨77, false, 0⟩) =
      (stEmpty, some (AlerterResponse.alertRequest 77 (Recipient.node 2))) :=
  (onMessage_rmc_spec stEmpty 2 ⟨77, false, 0⟩).1 (by decide)

/-- C6 (amended): `on_own_alert` records the forker in the registry, signs
the alert with the node's own key, registers it in the RMC table under
`(alert.sender, forker)`, stores it in known-alerts under its hash, and
returns `(ForkAlert(signed alert), Everyone, alert_hash)`. -/
theorem onOwnAlert_spec (st : AlerterState) (alert : Alert) :
    onOwnAlert st alert =
      ({ st with
          knownForkers := insertKey alert.forker alert.proof st.knownForkers
          knownRmcs :=
            insertKey (alert.sender, alert.forker) (st.env.hashAlert alert) st.knownRmcs
          knownAlerts :=
            insertKey (st.env.hashAlert alert) (alert, st.env.signAlert alert) st.knownAlerts },
       (AlertMessage.forkAlert alert (st.env.signAlert alert), Recipient.everyone,
        st.env.hashAlert alert)) := rfl

/-- C6 counterexample: for an own alert whose sender field is not the
local node's index, the RMC registration is keyed by the alert's sender
(3), not by the handler's own index (0). -/
theorem onOwnAlert_own_index_counterexample :
    mockEnv.index = 0 ∧ (3 : NodeIndex) ≠ mockEnv.index ∧
    lookupKey ((0 : NodeIndex), (6 : NodeIndex))
      (onOwnAlert stEmpty ⟨3, proofAB, []⟩).1.knownRmcs = none ∧
    lookupKey ((3 : NodeIndex), (6 : NodeIndex))
      (onOwnAlert stEmpty ⟨3, proofAB, []⟩).1.knownRmcs =
      some (mockEnv.hashAlert ⟨3, proofAB, []⟩) := by decide

/-- C4: for a validly signed network alert whose fork proof validates: if
the `(sender, forker)` pair already has an RMC entry the alert is cached
under its hash and `None` is returned; otherwise the alert is registered
in the RMC table and cached, `Some((n, hash))` is returned, and `n` is the
`Forker` notification exactly when the forker was not yet in the registry,
which is then updated. -/
theorem onNetworkAlert_spec (st : AlerterState) (alert : Alert) (sig : Sig)
    (forker : NodeIndex)
    (hsig : st.env.alertSigOk alert sig = true)
    (hwho : whoIsForking st alert.proof = some forker) :
    (containsKey (alert.sender, forker) st.knownRmcs = true →
      onNetworkAlert st alert sig =
        ({ st with
            knownAlerts := insertKey (st.env.hashAlert alert) (alert, sig) st.knownAlerts },
         none)) ∧
    (containsKey (alert.sender, forker) st.knownRmcs = false →
      onNetworkAlert st alert sig =
        ({ st with
            knownForkers :=
              if containsKey forker st.knownForkers = true then st.knownForkers
              else insertKey forker alert.proof st.knownForkers
            knownRmcs :=
              insertKey (alert.sender, forker) (st.env.hashAlert alert) st.knownRmcs
            knownAlerts := insertKey (st.env.hashAlert alert) (alert, sig) st.knownAlerts },
         some ((if containsKey forker st.knownForkers = true then none
            else some (ForkingNotification.forker alert.proof)),
           st.env.hashAlert alert))) := by
  constructor
  · intro hin
    simp [onNetworkAlert, hsig, hwho, hin]
  · intro hin
    by_cases hf : containsKey forker st.knownForkers = true
    · simp [onNetworkAlert, hsig, hwho, hin, hf, isForker, rmcAlert]
    · simp [onNetworkAlert, hsig, hwho, hin, hf, isForker, rmcAlert]

/-- Closed instance of `onNetworkAlert_spec`: a fresh alerter accepts a
valid network alert, registering the forker and returning the `Forker`
notification with the alert's hash. -/
theorem onNetworkAlert_spec_witness :
    onNetworkAlert stEmpty alertE 5 =
      ({ stEmpty with
          knownForkers :=
            if containsKey 6 stEmpty.knownForkers = true then stEmpty.knownForkers
            else insertKey 6 alertE.proof stEmpty.knownForkers
          knownRmcs :=
            insertKey (alertE.sender, 6) (stEmpty.env.hashAlert alertE) stEmpty.knownRmcs
          knownAlerts :=
            insertKey (stEmpty.env.hashAlert alertE) (alertE, 5) stEmpty.knownAlerts },
       some ((if containsKey 6 stEmpty.knownForkers = true then none
          else some (ForkingNotification.forker alertE.proof)),
         stEmpty.env.hashAlert alertE)) :=
  (onNetworkAlert_spec stEmpty alertE 5 6 (by decide) (by decide)).2 (by decide)

/-- C1 (amended): for a multisigned hash present in the known-alerts
table, `alert_confirmed` returns `Units(legit_units)` exactly when every
legit unit is correctly signed and created by the forker and the legit
units' rounds are pairwise distinct (the units' sessions are not
checked); when that fails no notification is returned, and any returned
notification is that `Units` value. -/
theorem alertConfirmed_spec (st : AlerterState) (h : Hash) (a : Alert × Sig)
    (hlook : lookupKey h st.knownAlerts = some a) :
    ((alertConfirmed st h).2 = some (ForkingNotification.units a.1.legitUnits) ↔
      ((∀ u ∈ a.1.legitUnits, st.env.unitSigOk u.unit u.signature = true ∧
          u.unit.creator = a.1.forker) ∧
        (a.1.legitUnits.map (fun u => u.unit.round)).Nodup)) ∧
    (∀ n, (alertConfirmed st h).2 = some n →
      n = ForkingNotification.units a.1.legitUnits) := by
  have hcc := correctCommitmentAux_iff st.env a.1.forker a.1.legitUnits []
  have h2 : (alertConfirmed st h).2 =
      (if correctCommitmentAux st.env a.1.forker a.1.legitUnits [] = true
       then some (ForkingNotification.units a.1.legitUnits) else none) := by
    simp only [alertConfirmed, hlook, correctCommitment, Alert.forker]
    by_cases hb : correctCommitmentAux st.env a.1.proof.1.unit.creator a.1.legitUnits [] = true
    · simp [hb]
    · rw [Bool.not_eq_true] at hb
      simp [hb]
  rw [h2]
  by_cases hb : correctCommitmentAux st.env a.1.forker a.1.legitUnits [] = true
  · rw [if_pos hb]
    refine ⟨iff_of_true rfl ⟨(hcc.mp hb).1, (hcc.mp hb).2.1⟩, ?_⟩
    intro n hn
    exact (Option.some_inj.mp hn).symm
  · rw [if_neg hb]
    refine ⟨iff_of_false (by simp) ?_, ?_⟩
    · rintro ⟨hall, hnd⟩
      exact hb (hcc.mpr ⟨hall, hnd, by simp⟩)
    · intro n hn
      simp at hn

/-- Closed instance of `alertConfirmed_spec`: a confirmed known alert with
an empty (trivially correct) commitment yields the `Units` notification. -/
theorem alertConfirmed_spec_witness :
    (alertConfirmed stE (mockEnv.hashAlert alertE)).2 =
      some (ForkingNotification.units alertE.legitUnits) :=
  (alertConfirmed_spec stE (mockEnv.hashAlert alertE) (alertE, 5) (by decide)).1.mpr
    (by decide)

/-- C1 counterexample: an alert legitimising a unit of a different session
(99, while the alerter runs session 0) whose units are correctly signed by
the forker with distinct rounds still yields the `Units` notification:
`correct_commitment` never checks the session. -/
theorem alertConfirmed_session_counterexample :
    (alertConfirmed stC (mockEnv.hashAlert alertC)).2 =
      some (ForkingNotification.units [suC]) ∧
    suC ∈ alertC.legitUnits ∧
    suC.unit.sessionId ≠ stC.sessionId := by decide

theorem oMax_assoc (a b c : Option Nat) :
    oMax (oMax a b) c = oMax a (oMax b c) := by
  cases a <;> cases b <;> cases c <;> simp [oMax, Nat.max_assoc]

theorem oMax_dup (r : Nat) (b c : Option Nat) :
    oMax (some r) (oMax b (oMax (some r) c)) = oMax (some r) (oMax b c) := by
  cases b with
  | none =>
    cases c with
    | none => simp [oMax]
    | some z => simp [oMax, ← Nat.max_assoc]
  | some y =>
    cases c with
    | none =>
      simp only [oMax]
      rw [Nat.max_comm y r, ← Nat.max_assoc, Nat.max_self]
    | some z =>
      simp only [oMax]
      rw [Nat.max_left_comm y r z, ← Nat.max_assoc, Nat.max_self]

theorem listMax_cons (r : Nat) (l : List Nat) :
    listMax (r :: l) = oMax (some r) (listMax l) := by
  cases h : listMax l <;> simp [listMax, oMax, h]

theorem listMax_append (l1 l2 : List Nat) :
    listMax (l1 ++ l2) = oMax (listMax l1) (listMax l2) := by
  induction l1 with
  | nil => simp [listMax, oMax]
  | cons r l1 ih =>
    rw [List.cons_append, listMax_cons, ih, listMax_cons, oMax_assoc]

theorem listMax_eq_none (l : List Nat) : listMax l = none ↔ l = [] := by
  cases l with
  | nil => simp [listMax]
  | cons r rs => cases h : listMax rs <;> simp [listMax, h]

theorem listMax_spec (l : List Nat) :
    ∀ m, listMax l = some m → m ∈ l ∧ ∀ x ∈ l, x ≤ m := by
  induction l with
  | nil => intro m h; simp [listMax] at h
  | cons r rs ih =>
    intro m h
    cases hrs : listMax rs with
    | none =>
      rw [listMax_cons, hrs] at h
      simp only [oMax, Option.some_inj] at h
      have : rs = [] := (listMax_eq_none rs).mp hrs
      subst this
      subst h
      exact ⟨List.mem_cons_self _ _, by simp⟩
    | some m2 =>
      rw [listMax_cons, hrs] at h
      simp only [oMax, Option.some_inj] at h
      obtain ⟨hmem, hle⟩ := ih m2 hrs
      subst h
      constructor
      · rcases max_choice r m2 with hc | hc
        · rw [hc]; exact List.mem_cons_self _ _
        · rw [hc]; exact List.mem_cons_of_mem _ hmem
      · intro x hx
        rcases List.mem_cons.mp hx with hx | hx
        · rw [hx]; exact le_max_left _ _
        · exact le_trans (hle x hx) (le_max_right _ _)

theorem verifyUnitsAux_cons_ok (sid : SessionId) (seen : List UnitCoord)
    (u : SignedUnit) (t : List SignedUnit) :
    verifyUnitsAux sid seen (u :: t) = .ok () ↔
      (u.unit.sessionId = sid ∧
       (∀ pid ∈ maskElements u.unit.controlHash.parentsMask,
          ((u.unit.round + 65535) % 65536, pid) ∈ seen) ∧
       verifyUnitsAux sid (u.unit.coord :: seen) t = .ok ()) := by
  by_cases hs : u.unit.sessionId = sid
  · by_cases hp : ∀ pid ∈ maskElements u.unit.controlHash.parentsMask,
        ((u.unit.round + 65535) % 65536, pid) ∈ seen
    · have he : verifyUnitsAux sid seen (u :: t) =
          verifyUnitsAux sid (u.unit.coord :: seen) t := by
        simp only [verifyUnitsAux]
        split_ifs with h1
        · exact absurd hs h1
        · rfl
      rw [he]
      exact ⟨fun hk => ⟨hs, hp, hk⟩, fun hk => hk.2.2⟩
    · have he : verifyUnitsAux sid seen (u :: t) =
          .error (.inconsistentData u.unit.coord) := by
        simp only [verifyUnitsAux]
        split_ifs with h1
        · exact absurd hs h1
        · rfl
      rw [he]
      refine iff_of_false (by simp) ?_
      rintro ⟨-, hp2, -⟩
      exact hp hp2
  · have he : verifyUnitsAux sid seen (u :: t) =
        .error (.wrongSession u.unit.coord sid u.unit.sessionId) := by
      simp only [verifyUnitsAux]
      split_ifs with h1 <;> rfl
    rw [he]
    refine iff_of_false (by simp) ?_
    rintro ⟨hs2, -⟩
    exact hs hs2

theorem verifyUnitsAux_append (sid : SessionId) :
    ∀ (l1 l2 : List SignedUnit) (seen : List UnitCoord),
      verifyUnitsAux sid seen (l1 ++ l2) = .ok () ↔
        (verifyUnitsAux sid seen l1 = .ok () ∧
         verifyUnitsAux sid (seenAfter seen l1) l2 = .ok ()) := by
  intro l1
  induction l1 with
  | nil => intro l2 seen; simp [verifyUnitsAux, seenAfter]
  | cons u us ih =>
    intro l2 seen
    rw [List.cons_append, verifyUnitsAux_cons_ok, verifyUnitsAux_cons_ok, ih]
    simp only [seenAfter]
    tauto

theorem verifyUnitsAux_congr (sid : SessionId) :
    ∀ (l : List SignedUnit) (s1 s2 : List UnitCoord),
      (∀ c, c ∈ s1 ↔ c ∈ s2) →
      verifyUnitsAux sid s1 l = verifyUnitsAux sid s2 l := by
  intro l
  induction l with
  | nil => intro s1 s2 _; rfl
  | cons u us ih =>
    intro s1 s2 h
    by_cases hs : u.unit.sessionId = sid
    · by_cases hp : ∀ pid ∈ maskElements u.unit.controlHash.parentsMask,
          ((u.unit.round + 65535) % 65536, pid) ∈ s1
      · have hp2 : ∀ pid ∈ maskElements u.unit.controlHash.parentsMask,
            ((u.unit.round + 65535) % 65536, pid) ∈ s2 :=
          fun pid hpid => (h _).mp (hp pid hpid)
        have e1 : verifyUnitsAux sid s1 (u :: us) =
            verifyUnitsAux sid (u.unit.coord :: s1) us := by
          simp only [verifyUnitsAux]
          split_ifs with h1
          · exact absurd hs h1
          · rfl
        have e2 : verifyUnitsAux sid s2 (u :: us) =
            verifyUnitsAux sid (u.unit.coord :: s2) us := by
          simp only [verifyUnitsAux]
          split_ifs with h1
          · exact absurd hs h1
          · rfl
        rw [e1, e2]
        exact ih _ _ (fun c => by
          rw [List.mem_cons, List.mem_cons, h c])
      · have hp2 : ¬ ∀ pid ∈ maskElements u.unit.controlHash.parentsMask,
            ((u.unit.round + 65535) % 65536, pid) ∈ s2 :=
          fun hall => hp (fun pid hpid => (h _).mpr (hall pid hpid))
        have e1 : verifyUnitsAux sid s1 (u :: us) =
            .error (.inconsistentData u.unit.coord) := by
          simp only [verifyUnitsAux]
          split_ifs with h1
          · exact absurd hs h1
          · rfl
        have e2 : verifyUnitsAux sid s2 (u :: us) =
            .error (.inconsistentData u.unit.coord) := by
          simp only [verifyUnitsAux]
          split_ifs with h1
          · exact absurd hs h1
          · rfl
        rw [e1, e2]
    · have e1 : verifyUnitsAux sid s1 (u :: us) =
          .error (.wrongSession u.unit.coord sid u.unit.sessionId) := by
        simp only [verifyUnitsAux]
        split_ifs with h1 <;> rfl
      have e2 : verifyUnitsAux sid s2 (u :: us) =
          .error (.wrongSession u.unit.coord sid u.unit.sessionId) := by
        simp only [verifyUnitsAux]
        split_ifs with h1 <;> rfl
      rw [e1, e2]

theorem seenAfter_mono :
    ∀ (l : List SignedUnit) (seen : List UnitCoord) (c : UnitCoord),
      c ∈ seen → c ∈ seenAfter seen l := by
  intro l
  induction l with
  | nil => intro seen c h; exact h
  | cons u us ih =>
    intro seen c h
    exact ih _ _ (List.mem_cons_of_mem _ h)

theorem verifyUnits_dup (sid : SessionId) (xs ys zs : List SignedUnit)
    (u : SignedUnit)
    (hok : verifyUnits sid (xs ++ u :: (ys ++ zs)) = .ok ()) :
    verifyUnits sid (xs ++ u :: (ys ++ u :: zs)) = .ok () := by
  unfold verifyUnits at hok ⊢
  obtain ⟨hxs, hrest⟩ := (verifyUnitsAux_append sid xs (u :: (ys ++ zs)) []).mp hok
  rw [verifyUnitsAux_cons_ok] at hrest
  obtain ⟨hs, hp, htail⟩ := hrest
  obtain ⟨hys, hzs⟩ :=
    (verifyUnitsAux_append sid ys zs (u.unit.coord :: seenAfter [] xs)).mp htail
  rw [verifyUnitsAux_append]
  refine ⟨hxs, ?_⟩
  rw [verifyUnitsAux_cons_ok]
  refine ⟨hs, hp, ?_⟩
  rw [verifyUnitsAux_append]
  refine ⟨hys, ?_⟩
  rw [verifyUnitsAux_cons_ok]
  have hcmem : u.unit.coord ∈ seenAfter (u.unit.coord :: seenAfter [] xs) ys :=
    seenAfter_mono ys _ _ (List.mem_cons_self _ _)
  refine ⟨hs, ?_, ?_⟩
  · intro pid hpid
    exact seenAfter_mono ys _ _ (List.mem_cons_of_mem _ (hp pid hpid))
  · rw [verifyUnitsAux_congr sid zs
      (u.unit.coord :: seenAfter (u.unit.coord :: seenAfter [] xs) ys)
      (seenAfter (u.unit.coord :: seenAfter [] xs) ys)
      (fun c => by
        rw [List.mem_cons]
        constructor
        · rintro (rfl | h)
          · exact hcmem
          · exact h
        · intro h; exact Or.inr h)]
    exact hzs

theorem nextRoundBackup_dup (i : NodeIndex) (xs ys zs : List SignedUnit)
    (u : SignedUnit) :
    nextRoundBackup i (xs ++ u :: (ys ++ u :: zs)) =
      nextRoundBackup i (xs ++ u :: (ys ++ zs)) := by
  have key : listMax (((xs ++ u :: (ys ++ u :: zs)).filter
        (fun v => v.unit.creator = i)).map (fun v => v.unit.round)) =
      listMax (((xs ++ u :: (ys ++ zs)).filter
        (fun v => v.unit.creator = i)).map (fun v => v.unit.round)) := by
    by_cases hc : u.unit.creator = i
    · simp only [List.filter_append, List.filter_cons, hc, decide_True, if_true,
        List.map_append, List.map_cons, listMax_append, listMax_cons]
      rw [oMax_dup]
    · simp only [List.filter_append, List.filter_cons, hc, decide_False,
        Bool.false_eq_true, if_false, List.map_append, listMax_append]
  unfold nextRoundBackup
  rw [key]

/-- C10: inserting a second copy of a unit record anywhere after its
original into a backup log that loads successfully with starting round
`Some(r)` yields a log that still passes verification and produces the
same starting round `Some(r)`. -/
theorem backupStartingRound_dup (sid : SessionId) (i : NodeIndex)
    (coll r : Round) (xs ys zs : List BackupItem) (u : SignedUnit)
    (hok : backupStartingRound sid i (xs ++ BackupItem.unit u :: (ys ++ zs)) coll =
      some r) :
    backupStartingRound sid i
      (xs ++ BackupItem.unit u :: (ys ++ BackupItem.unit u :: zs)) coll = some r := by
  have hu1 : itemsUnits (xs ++ BackupItem.unit u :: (ys ++ zs)) =
      itemsUnits xs ++ u :: (itemsUnits ys ++ itemsUnits zs) := by
    simp [itemsUnits, List.filterMap_append]
  have hu2 : itemsUnits (xs ++ BackupItem.unit u :: (ys ++ BackupItem.unit u :: zs)) =
      itemsUnits xs ++ u :: (itemsUnits ys ++ u :: itemsUnits zs) := by
    simp [itemsUnits, List.filterMap_append]
  unfold backupStartingRound at hok ⊢
  rw [hu1] at hok
  rw [hu2]
  cases hv : verifyUnits sid (itemsUnits xs ++ u :: (itemsUnits ys ++ itemsUnits zs)) with
  | error e =>
    rw [hv] at hok
    simp at hok
  | ok v =>
    cases v
    rw [hv] at hok
    have hv2 := verifyUnits_dup sid (itemsUnits xs) (itemsUnits ys) (itemsUnits zs) u hv
    rw [hv2]
    simp only [nextRoundBackup_dup]
    exact hok

/-- Closed instance of `backupStartingRound_dup`: duplicating the only
unit record keeps the starting round. -/
theorem backupStartingRound_dup_witness :
    backupStartingRound 0 0
      [BackupItem.unit ⟨⟨0, 0, 0, ⟨[], 0⟩, 0⟩, 0⟩,
       BackupItem.unit ⟨⟨0, 0, 0, ⟨[], 0⟩, 0⟩, 0⟩] 1 = some 1 :=
  backupStartingRound_dup 0 0 1 1 [] [] [] ⟨⟨0, 0, 0, ⟨[], 0⟩, 0⟩, 0⟩ (by decide)

/-- C9: `verify_units` is total: every input yields `Ok` or an
`IncorrectBackupError`; in particular, for a round-0 unit with a non-empty
parents mask the parent coordinate `round - 1` is the wrapped `u16` value
and the unit list is rejected with `InconsistentData`, not a crash. -/
theorem verifyUnits_total :
    (∀ (sid : SessionId) (us : List SignedUnit),
      verifyUnits sid us = Except.ok () ∨ ∃ e, verifyUnits sid us = Except.error e) ∧
    (∀ (sid : SessionId) (u : SignedUnit), u.unit.round = 0 →
      u.unit.sessionId = sid →
      maskElements u.unit.controlHash.parentsMask ≠ [] →
      verifyUnits sid [u] =
        Except.error (IncorrectBackupError.inconsistentData (0, u.unit.creator))) := by
  constructor
  · intro sid us
    cases hv : verifyUnits sid us with
    | ok v => cases v; exact Or.inl rfl
    | error e => exact Or.inr ⟨e, rfl⟩
  · intro sid u h0 hsid hne
    have hp : ¬ ∀ pid ∈ maskElements u.unit.controlHash.parentsMask,
        ((u.unit.round + 65535) % 65536, pid) ∈ ([] : List UnitCoord) := by
      intro hall
      rcases List.exists_mem_of_ne_nil _ hne with ⟨pid, hpid⟩
      exact absurd (hall pid hpid) (List.not_mem_nil _)
    have he : verifyUnits sid [u] = .error (.inconsistentData u.unit.coord) := by
      unfold verifyUnits
      simp only [verifyUnitsAux]
      split_ifs with h1
      · exact absurd hsid h1
      · rfl
    rw [he]
    simp [FullUnit.coord, h0]

/-- Closed instance of `verifyUnits_total`: a round-0 unit with a set
parent bit is rejected with a definite `InconsistentData` error. -/
theorem verifyUnits_total_witness :
    verifyUnits 0 [⟨⟨4, 0, 0, ⟨[true], 0⟩, 0⟩, 4⟩] =
      Except.error (IncorrectBackupError.inconsistentData (0, 4)) :=
  verifyUnits_total.2 0 ⟨⟨4, 0, 0, ⟨[true], 0⟩, 0⟩, 4⟩ rfl rfl (by decide)

/-- Counterexample to the unqualified reading of the starting-round claim:
for a verified backup log whose only unit is the local node's own unit of
round `65535`, `next_round_backup` is `0`, not `65535 + 1` — the `u16`
increment wraps (release builds; a debug build panics) — and the loader
then refuses to start against collection round `1`. -/
theorem backupStartingRound_wrap_counterexample :
    verifyUnits 0 (itemsUnits [BackupItem.unit ⟨⟨0, 65535, 0, ⟨[], 0⟩, 0⟩, 0⟩]) =
      Except.ok () ∧
    nextRoundBackup 0 (itemsUnits [BackupItem.unit ⟨⟨0, 65535, 0, ⟨[], 0⟩, 0⟩, 0⟩]) =
      0 ∧
    (65535 + 1 : Nat) ≠ 0 ∧
    backupStartingRound 0 0 [BackupItem.unit ⟨⟨0, 65535, 0, ⟨[], 0⟩, 0⟩, 0⟩] 1 =
      none :=
  ⟨rfl, rfl, by decide, rfl⟩

/-- C7 (amended): on a decoded and verified log, `next_round_backup` is
`(m + 1) % 2^16` where `m` is the maximal round among loaded units created
by the local node — the increment wraps on the `u16` type `Round` — or `0`
when there are none; the loader refuses to start when it is behind the
collection round, and otherwise signals `Some(next_round_backup)`,
including the ahead-of-collection case. -/
theorem backupStartingRound_spec (sid : SessionId) (i : NodeIndex)
    (items : List BackupItem) (coll : Round)
    (hok : verifyUnits sid (itemsUnits items) = .ok ()) :
    ((∀ u ∈ itemsUnits items, u.unit.creator ≠ i) →
        nextRoundBackup i (itemsUnits items) = 0) ∧
    ((∃ u ∈ itemsUnits items, u.unit.creator = i) →
        ∃ u ∈ itemsUnits items, u.unit.creator = i ∧
          nextRoundBackup i (itemsUnits items) = (u.unit.round + 1) % 65536 ∧
          ∀ v ∈ itemsUnits items, v.unit.creator = i →
            v.unit.round ≤ u.unit.round) ∧
    (nextRoundBackup i (itemsUnits items) < coll →
        backupStartingRound sid i items coll = none) ∧
    (coll ≤ nextRoundBackup i (itemsUnits items) →
        backupStartingRound sid i items coll =
          some (nextRoundBackup i (itemsUnits items))) := by
  refine ⟨?_, ?_, ?_, ?_⟩
  · intro hall
    have hf : (itemsUnits items).filter (fun v => v.unit.creator = i) = [] := by
      rw [List.filter_eq_nil_iff]
      intro a ha
      simp [hall a ha]
    unfold nextRoundBackup
    rw [hf]
    rfl
  · rintro ⟨u, hu, hcu⟩
    have hmem : u.unit.round ∈
        (((itemsUnits items).filter (fun v => v.unit.creator = i)).map
          (fun v => v.unit.round)) :=
      List.mem_map.mpr ⟨u, List.mem_filter.mpr ⟨hu, by simp [hcu]⟩, rfl⟩
    unfold nextRoundBackup
    cases hm : listMax (((itemsUnits items).filter (fun v => v.unit.creator = i)).map
        (fun v => v.unit.round)) with
    | none =>
      exfalso
      rw [(listMax_eq_none _).mp hm] at hmem
      exact absurd hmem (List.not_mem_nil _)
    | some m =>
      rcases List.mem_map.mp (listMax_spec _ m hm).1 with ⟨v, hvf, hvr⟩
      rcases List.mem_filter.mp hvf with ⟨hvmem, hvc⟩
      refine ⟨v, hvmem, by simpa using hvc, ?_, ?_⟩
      · show (m + 1) % 65536 = (v.unit.round + 1) % 65536
        rw [hvr]
      · intro w hw hcw
        have hwmem : w.unit.round ∈
            (((itemsUnits items).filter (fun x => x.unit.creator = i)).map
              (fun x => x.unit.round)) :=
          List.mem_map.mpr ⟨w, List.mem_filter.mpr ⟨hw, by simp [hcw]⟩, rfl⟩
        have hle := (listMax_spec _ m hm).2 _ hwmem
        rw [hvr]
        exact hle
  · intro hlt
    unfold backupStartingRound
    rw [hok]
    show (if nextRoundBackup i (itemsUnits items) < coll then none
      else some (nextRoundBackup i (itemsUnits items))) = none
    rw [if_pos hlt]
  · intro hge
    unfold backupStartingRound
    rw [hok]
    show (if nextRoundBackup i (itemsUnits items) < coll then none
      else some (nextRoundBackup i (itemsUnits items))) =
        some (nextRoundBackup i (itemsUnits items))
    rw [if_neg (Nat.not_lt.mpr hge)]

/-- Closed instance of `backupStartingRound_spec`: the empty log with
collection round 0 starts at round 0. -/
theorem backupStartingRound_spec_witness :
    backupStartingRound 0 0 [] 0 = some (nextRoundBackup 0 (itemsUnits [])) :=
  (backupStartingRound_spec 0 0 [] 0 rfl).2.2.2 (by decide)

theorem lookupKey_insertKey {α β : Type} [DecidableEq α] (k k' : α) (v : β)
    (m : List (α × β)) :
    lookupKey k (insertKey k' v m) = if k' = k then some v else lookupKey k m := by
  simp [insertKey, lookupKey]

theorem lookupKey_eraseKey_self {α β : Type} [DecidableEq α] (k : α)
    (m : List (α × β)) : lookupKey k (eraseKey k m) = none := by
  induction m with
  | nil => rfl
  | cons p m ih =>
    by_cases hp : p.1 = k
    · rw [show eraseKey k (p :: m) = eraseKey k m by
        simp [eraseKey, List.filter_cons, hp]]
      exact ih
    · rw [show eraseKey k (p :: m) = p :: eraseKey k m by
        simp [eraseKey, List.filter_cons, hp]]
      rw [lookupKey, if_neg hp]
      exact ih

theorem lookupKey_eraseKey_ne {α β : Type} [DecidableEq α] (k k' : α)
    (m : List (α × β)) (hne : k ≠ k') :
    lookupKey k (eraseKey k' m) = lookupKey k m := by
  induction m with
  | nil => rfl
  | cons p m ih =>
    by_cases hp : p.1 = k'
    · have hpk : ¬ p.1 = k := fun hh => hne (by rw [← hh, hp])
      rw [show eraseKey k' (p :: m) = eraseKey k' m by
        simp [eraseKey, List.filter_cons, hp]]
      rw [ih, lookupKey, if_neg hpk]
    · rw [show eraseKey k' (p :: m) = p :: eraseKey k' m by
        simp [eraseKey, List.filter_cons, hp]]
      by_cases hpk : p.1 = k
      · rw [lookupKey, if_pos hpk, lookupKey, if_pos hpk]
      · rw [lookupKey, if_neg hpk, lookupKey, if_neg hpk, ih]

theorem onNetworkAlert_snd_cases (st : AlerterState) (a : Alert) (s : Sig) :
    (onNetworkAlert st a s).2 = none ∨
    (∃ hh, (onNetworkAlert st a s).2 = some (none, hh)) ∨
    (∃ hh, (onNetworkAlert st a s).2 =
      some (some (ForkingNotification.forker a.proof), hh)) := by
  by_cases hs : st.env.alertSigOk a s = true
  · cases hw : whoIsForking st a.proof with
    | none => left; simp [onNetworkAlert, hs, hw]
    | some forker =>
      by_cases hc : containsKey (a.sender, forker) st.knownRmcs = true
      · left; simp [onNetworkAlert, hs, hw, hc]
      · by_cases hf : isForker st forker = true
        · right; left
          exact ⟨st.env.hashAlert a, by simp [onNetworkAlert, rmcAlert, hs, hw, hc, hf]⟩
        · right; right
          exact ⟨st.env.hashAlert a, by simp [onNetworkAlert, rmcAlert, hs, hw, hc, hf]⟩
  · left; simp [onNetworkAlert, hs]

theorem onNetworkAlert_no_units (st : AlerterState) (a : Alert) (s : Sig)
    (r : Option ForkingNotification × Hash)
    (h : (onNetworkAlert st a s).2 = some r) :
    ∀ us, r.1 ≠ some (ForkingNotification.units us) := by
  rcases onNetworkAlert_snd_cases st a s with hcase | ⟨hh, hcase⟩ | ⟨hh, hcase⟩
  · rw [hcase] at h
    simp at h
  · rw [hcase] at h
    obtain rfl := Option.some_inj.mp h
    simp
  · rw [hcase] at h
    obtain rfl := Option.some_inj.mp h
    simp

theorem alertConfirmed_only_units (st : AlerterState) (h : Hash)
    (n : ForkingNotification)
    (hc : (alertConfirmed st h).2 = some n) :
    ∃ us, n = ForkingNotification.units us := by
  unfold alertConfirmed at hc
  cases hl : lookupKey h st.knownAlerts with
  | none => rw [hl] at hc; simp at hc
  | some a =>
    rw [hl] at hc
    dsimp only at hc
    split_ifs at hc with hcc
    · exact ⟨a.1.legitUnits, (Option.some_inj.mp hc).symm⟩

theorem serviceRun_cons (st : ServiceState) (e : ServiceEvent)
    (es : List ServiceEvent) :
    serviceRun st (e :: es) =
      (serviceStep st e).2 :: serviceRun (serviceStep st e).1 es := rfl

theorem serviceStep_notify_units (st : ServiceState) (e : ServiceEvent)
    (us : List SignedUnit) (hnet : netRespOk st)
    (hmem : ServiceOut.notify (ForkingNotification.units us) ∈ (serviceStep st e).2) :
    ∃ ms, e = ServiceEvent.fromBackup (AlertData.multisignedHash ms) ∧
      lookupKey ms st.multisignedNotifications =
        some (ForkingNotification.units us) := by
  cases e with
  | fromNetwork m =>
    exfalso
    cases m with
    | forkAlert a s =>
      simp only [serviceStep] at hmem
      cases hp : (onNetworkAlert st.handler a s).2 with
      | none => rw [hp] at hmem; simp at hmem
      | some resp => rw [hp] at hmem; simp at hmem
    | rmcMessage s m2 =>
      simp only [serviceStep] at hmem
      cases hp : (onMessage st.handler (AlertMessage.rmcMessage s m2)).2 with
      | none => rw [hp] at hmem; simp at hmem
      | some resp =>
        rw [hp] at hmem
        cases resp <;> simp at hmem
    | alertRequest nd hh =>
      simp only [serviceStep] at hmem
      cases hp : (onMessage st.handler (AlertMessage.alertRequest nd hh)).2 with
      | none => rw [hp] at hmem; simp at hmem
      | some resp =>
        rw [hp] at hmem
        cases resp <;> simp at hmem
  | fromRunway a =>
    exfalso
    simp [serviceStep] at hmem
  | rmcMultisigned ms =>
    exfalso
    simp only [serviceStep] at hmem
    cases hp : (alertConfirmed st.handler ms).2 with
    | none => rw [hp] at hmem; simp at hmem
    | some n => rw [hp] at hmem; simp at hmem
  | rmcHashOut m2 =>
    exfalso
    simp [serviceStep] at hmem
  | fromBackup d =>
    cases d with
    | ownAlert a =>
      exfalso
      simp only [serviceStep] at hmem
      cases hp : lookupKey (st.handler.env.hashAlert a) st.ownAlertResponses with
      | none => rw [hp] at hmem; simp at hmem
      | some r => rw [hp] at hmem; simp at hmem
    | networkAlert a =>
      exfalso
      simp only [serviceStep] at hmem
      cases hp : lookupKey (st.handler.env.hashAlert a) st.networkAlertResponses with
      | none => rw [hp] at hmem; simp at hmem
      | some r =>
        obtain ⟨mn, hh2⟩ := r
        rw [hp] at hmem
        cases mn with
        | none => simp at hmem
        | some n =>
          simp at hmem
          exact hnet _ (some n) hh2 hp us (by rw [← hmem])
    | multisignedHash ms =>
      simp only [serviceStep] at hmem
      cases hp : lookupKey ms st.multisignedNotifications with
      | none => rw [hp] at hmem; simp at hmem
      | some n =>
        rw [hp] at hmem
        simp at hmem
        exact ⟨ms, rfl, by rw [hp, hmem]⟩

theorem serviceStep_netRespOk (st : ServiceState) (e : ServiceEvent)
    (hnet : netRespOk st) : netRespOk (serviceStep st e).1 := by
  cases e with
  | fromNetwork m =>
    cases m with
    | forkAlert a s =>
      cases hp : (onNetworkAlert st.handler a s).2 with
      | none =>
        intro k mn hh hl
        rw [show (serviceStep st (ServiceEvent.fromNetwork
            (AlertMessage.forkAlert a s))).1.networkAlertResponses =
            st.networkAlertResponses from by simp [serviceStep, hp]] at hl
        exact hnet k mn hh hl
      | some resp =>
        intro k mn hh hl
        rw [show (serviceStep st (ServiceEvent.fromNetwork
            (AlertMessage.forkAlert a s))).1.networkAlertResponses =
            insertKey (st.handler.env.hashAlert a) resp st.networkAlertResponses
            from by simp [serviceStep, hp]] at hl
        rw [lookupKey_insertKey] at hl
        by_cases hk : st.handler.env.hashAlert a = k
        · rw [if_pos hk] at hl
          intro us
          have hnu := onNetworkAlert_no_units st.handler a s resp hp us
          rw [show resp.1 = mn from congrArg Prod.fst (Option.some_inj.mp hl)] at hnu
          exact hnu
        · rw [if_neg hk] at hl
          exact hnet k mn hh hl
    | rmcMessage s m2 =>
      intro k mn hh hl
      rw [show (serviceStep st (ServiceEvent.fromNetwork
          (AlertMessage.rmcMessage s m2))).1.networkAlertResponses =
          st.networkAlertResponses from by
        cases hp : (onMessage st.handler (AlertMessage.rmcMessage s m2)).2 with
        | none => simp [serviceStep, hp]
        | some resp => cases resp <;> simp [serviceStep, hp]] at hl
      exact hnet k mn hh hl
    | alertRequest nd hh0 =>
      intro k mn hh hl
      rw [show (serviceStep st (ServiceEvent.fromNetwork
          (AlertMessage.alertRequest nd hh0))).1.networkAlertResponses =
          st.networkAlertResponses from by
        cases hp : (onMessage st.handler (AlertMessage.alertRequest nd hh0)).2 with
        | none => simp [serviceStep, hp]
        | some resp => cases resp <;> simp [serviceStep, hp]] at hl
      exact hnet k mn hh hl
  | fromRunway a =>
    intro k mn hh hl
    rw [show (serviceStep st (ServiceEvent.fromRunway a)).1.networkAlertResponses =
        st.networkAlertResponses from by simp [serviceStep]] at hl
    exact hnet k mn hh hl
  | rmcMultisigned ms =>
    intro k mn hh hl
    rw [show (serviceStep st (ServiceEvent.rmcMultisigned ms)).1.networkAlertResponses =
        st.networkAlertResponses from by
      cases hp : (alertConfirmed st.handler ms).2 with
      | none => simp [serviceStep, hp]
      | some n => simp [serviceStep, hp]] at hl
    exact hnet k mn hh hl
  | rmcHashOut m2 =>
    intro k mn hh hl
    rw [show (serviceStep st (ServiceEvent.rmcHashOut m2)).1.networkAlertResponses =
        st.networkAlertResponses from by simp [serviceStep]] at hl
    exact hnet k mn hh hl
  | fromBackup d =>
    cases d with
    | ownAlert a =>
      intro k mn hh hl
      rw [show (serviceStep st (ServiceEvent.fromBackup
          (AlertData.ownAlert a))).1.networkAlertResponses =
          st.networkAlertResponses from by
        cases hp : lookupKey (st.handler.env.hashAlert a) st.ownAlertResponses with
        | none => simp [serviceStep, hp]
        | some r => simp [serviceStep, hp]] at hl
      exact hnet k mn hh hl
    | networkAlert a =>
      cases hp : lookupKey (st.handler.env.hashAlert a) st.networkAlertResponses with
      | none =>
        intro k mn hh hl
        rw [show (serviceStep st (ServiceEvent.fromBackup
            (AlertData.networkAlert a))).1.networkAlertResponses =
            st.networkAlertResponses from by simp [serviceStep, hp]] at hl
        exact hnet k mn hh hl
      | some r =>
        intro k mn hh hl
        rw [show (serviceStep st (ServiceEvent.fromBackup
            (AlertData.networkAlert a))).1.networkAlertResponses =
            eraseKey (st.handler.env.hashAlert a) st.networkAlertResponses
            from by simp [serviceStep, hp]] at hl
        by_cases hk : k = st.handler.env.hashAlert a
        · rw [hk, lookupKey_eraseKey_self] at hl
          simp at hl
        · rw [lookupKey_eraseKey_ne _ _ _ hk] at hl
          exact hnet k mn hh hl
    | multisignedHash ms =>
      intro k mn hh hl
      rw [show (serviceStep st (ServiceEvent.fromBackup
          (AlertData.multisignedHash ms))).1.networkAlertResponses =
          st.networkAlertResponses from by
        cases hp : lookupKey ms st.multisignedNotifications with
        | none => simp [serviceStep, hp]
        | some n => simp [serviceStep, hp]] at hl
      exact hnet k mn hh hl

theorem serviceStep_multi_lookup (st : ServiceState) (e : ServiceEvent)
    (ms : Hash) (n : ForkingNotification)
    (hl : lookupKey ms (serviceStep st e).1.multisignedNotifications = some n) :
    lookupKey ms st.multisignedNotifications = some n ∨
      ServiceOut.toBackup (AlertData.multisignedHash ms) ∈ (serviceStep st e).2 := by
  cases e with
  | fromNetwork m =>
    left
    cases m with
    | forkAlert a s =>
      cases hp : (onNetworkAlert st.handler a s).2 with
      | none =>
        rwa [show (serviceStep st (ServiceEvent.fromNetwork
            (AlertMessage.forkAlert a s))).1.multisignedNotifications =
            st.multisignedNotifications from by simp [serviceStep, hp]] at hl
      | some resp =>
        rwa [show (serviceStep st (ServiceEvent.fromNetwork
            (AlertMessage.forkAlert a s))).1.multisignedNotifications =
            st.multisignedNotifications from by simp [serviceStep, hp]] at hl
    | rmcMessage s m2 =>
      rwa [show (serviceStep st (ServiceEvent.fromNetwork
          (AlertMessage.rmcMessage s m2))).1.multisignedNotifications =
          st.multisignedNotifications from by
        cases hp : (onMessage st.handler (AlertMessage.rmcMessage s m2)).2 with
        | none => simp [serviceStep, hp]
        | some resp => cases resp <;> simp [serviceStep, hp]] at hl
    | alertRequest nd hh0 =>
      rwa [show (serviceStep st (ServiceEvent.fromNetwork
          (AlertMessage.alertRequest nd hh0))).1.multisignedNotifications =
          st.multisignedNotifications from by
        cases hp : (onMessage st.handler (AlertMessage.alertRequest nd hh0)).2 with
        | none => simp [serviceStep, hp]
        | some resp => cases resp <;> simp [serviceStep, hp]] at hl
  | fromRunway a =>
    left
    rwa [show (serviceStep st (ServiceEvent.fromRunway a)).1.multisignedNotifications =
        st.multisignedNotifications from by simp [serviceStep]] at hl
  | rmcMultisigned ms' =>
    cases hp : (alertConfirmed st.handler ms').2 with
    | none =>
      left
      rwa [show (serviceStep st (ServiceEvent.rmcMultisigned ms')).1.multisignedNotifications =
          st.multisignedNotifications from by simp [serviceStep, hp]] at hl
    | some n' =>
      rw [show (serviceStep st (ServiceEvent.rmcMultisigned ms')).1.multisignedNotifications =
          insertKey ms' n' st.multisignedNotifications from by simp [serviceStep, hp]] at hl
      rw [lookupKey_insertKey] at hl
      by_cases hk : ms' = ms
      · right
        rw [show (serviceStep st (ServiceEvent.rmcMultisigned ms')).2 =
            [ServiceOut.toBackup (AlertData.multisignedHash ms')] from by
          simp [serviceStep, hp]]
        rw [hk]
        exact List.mem_singleton.mpr rfl
      · left
        rwa [if_neg hk] at hl
  | rmcHashOut m2 =>
    left
    rwa [show (serviceStep st (ServiceEvent.rmcHashOut m2)).1.multisignedNotifications =
        st.multisignedNotifications from by simp [serviceStep]] at hl
  | fromBackup d =>
    cases d with
    | ownAlert a =>
      left
      rwa [show (serviceStep st (ServiceEvent.fromBackup
          (AlertData.ownAlert a))).1.multisignedNotifications =
          st.multisignedNotifications from by
        cases hp : lookupKey (st.handler.env.hashAlert a) st.ownAlertResponses with
        | none => simp [serviceStep, hp]
        | some r => simp [serviceStep, hp]] at hl
    | networkAlert a =>
      left
      rwa [show (serviceStep st (ServiceEvent.fromBackup
          (AlertData.networkAlert a))).1.multisignedNotifications =
          st.multisignedNotifications from by
        cases hp : lookupKey (st.handler.env.hashAlert a) st.networkAlertResponses with
        | none => simp [serviceStep, hp]
        | some r => simp [serviceStep, hp]] at hl
    | multisignedHash ms' =>
      left
      cases hp : lookupKey ms' st.multisignedNotifications with
      | none =>
        rwa [show (serviceStep st (ServiceEvent.fromBackup
            (AlertData.multisignedHash ms'))).1.multisignedNotifications =
            st.multisignedNotifications from by simp [serviceStep, hp]] at hl
      | some n' =>
        rw [show (serviceStep st (ServiceEvent.fromBackup
            (AlertData.multisignedHash ms'))).1.multisignedNotifications =
            eraseKey ms' st.multisignedNotifications from by simp [serviceStep, hp]] at hl
        by_cases hk : ms = ms'
        · rw [hk, lookupKey_eraseKey_self] at hl
          simp at hl
        · rwa [lookupKey_eraseKey_ne _ _ _ hk] at hl

theorem serviceRun_units_aux :
    ∀ (es : List ServiceEvent) (st : ServiceState), netRespOk st →
      ∀ k us outs, (serviceRun st es)[k]? = some outs →
        ServiceOut.notify (ForkingNotification.units us) ∈ outs →
        ∃ ms, es[k]? = some (ServiceEvent.fromBackup (AlertData.multisignedHash ms)) ∧
          (lookupKey ms st.multisignedNotifications =
              some (ForkingNotification.units us) ∨
           ∃ (j : Nat) (outs2 : List ServiceOut), j < k ∧
             (serviceRun st es)[j]? = some outs2 ∧
             ServiceOut.toBackup (AlertData.multisignedHash ms) ∈ outs2) := by
  intro es
  induction es with
  | nil =>
    intro st _ k us outs hget
    simp [serviceRun] at hget
  | cons e es ih =>
    intro st hnet k us outs hget hmem
    rw [serviceRun_cons] at hget
    cases k with
    | zero =>
      rw [List.getElem?_cons_zero] at hget
      obtain rfl := Option.some_inj.mp hget
      obtain ⟨ms, rfl, hlook⟩ := serviceStep_notify_units st e us hnet hmem
      exact ⟨ms, by simp, Or.inl hlook⟩
    | succ k =>
      rw [List.getElem?_cons_succ] at hget
      have hnet1 := serviceStep_netRespOk st e hnet
      obtain ⟨ms, hes, hdisj⟩ := ih (serviceStep st e).1 hnet1 k us outs hget hmem
      refine ⟨ms, by simpa using hes, ?_⟩
      rcases hdisj with hlook | ⟨j, outs2, hj, hget2, hmem2⟩
      · rcases serviceStep_multi_lookup st e ms _ hlook with hlook0 | hout
        · exact Or.inl hlook0
        · exact Or.inr ⟨0, (serviceStep st e).2, Nat.succ_pos _,
            by rw [serviceRun_cons]; simp, hout⟩
      · exact Or.inr ⟨j + 1, outs2, Nat.succ_lt_succ hj,
          by rw [serviceRun_cons]; simpa using hget2, hmem2⟩

/-- C2: `handle_multisigned` emits no notification (it only stores the
pending notification and submits the `MultisignedHash` record to backup),
and in any run of the service from a fresh state, a
`ForkingNotification::Units` is emitted only while processing the backup
acknowledgement of a `MultisignedHash` record, after an earlier iteration
submitted that same record to backup. -/
theorem units_notifications_after_backup_ack :
    (∀ (st : ServiceState) (ms : Multisigned) (n : ForkingNotification),
      ServiceOut.notify n ∉ (serviceStep st (ServiceEvent.rmcMultisigned ms)).2) ∧
    (∀ (a : AlerterState) (es : List ServiceEvent) (k : Nat)
      (us : List SignedUnit) (outs : List ServiceOut),
      (serviceRun (initServiceState a) es)[k]? = some outs →
      ServiceOut.notify (ForkingNotification.units us) ∈ outs →
      ∃ ms, es[k]? = some (ServiceEvent.fromBackup (AlertData.multisignedHash ms)) ∧
        ∃ (j : Nat) (outs2 : List ServiceOut), j < k ∧
          (serviceRun (initServiceState a) es)[j]? = some outs2 ∧
          ServiceOut.toBackup (AlertData.multisignedHash ms) ∈ outs2) := by
  constructor
  · intro st ms n
    cases hp : (alertConfirmed st.handler ms).2 with
    | none => simp [serviceStep, hp]
    | some n' => simp [serviceStep, hp]
  · intro a es k us outs hget hmem
    have hinit : netRespOk (initServiceState a) := by
      intro k2 mn hh hl
      simp [initServiceState, lookupKey] at hl
    obtain ⟨ms, hes, hdisj⟩ :=
      serviceRun_units_aux es (initServiceState a) hinit k us outs hget hmem
    rcases hdisj with hlook | hj
    · exfalso
      simp [initServiceState, lookupKey] at hlook
    · exact ⟨ms, hes, hj⟩

/-- Closed instance of `units_notifications_after_backup_ack`: confirming
a known alert and acknowledging the multisignature record releases the
`Units` notification in the acknowledgement step, after the record was
submitted in the earlier step. -/
theorem units_notifications_after_backup_ack_witness :
    (serviceRun (initServiceState stE)
        [ServiceEvent.rmcMultisigned (mockEnv.hashAlert alertE),
         ServiceEvent.fromBackup (AlertData.multisignedHash (mockEnv.hashAlert alertE))])[1]? =
      some [ServiceOut.notify (ForkingNotification.units [])] ∧
    (∃ ms,
      [ServiceEvent.rmcMultisigned (mockEnv.hashAlert alertE),
       ServiceEvent.fromBackup (AlertData.multisignedHash (mockEnv.hashAlert alertE))][1]? =
        some (ServiceEvent.fromBackup (AlertData.multisignedHash ms)) ∧
      ∃ (j : Nat) (outs2 : List ServiceOut), j < 1 ∧
        (serviceRun (initServiceState stE)
          [ServiceEvent.rmcMultisigned (mockEnv.hashAlert alertE),
           ServiceEvent.fromBackup (AlertData.multisignedHash (mockEnv.hashAlert alertE))])[j]? =
          some outs2 ∧
        ServiceOut.toBackup (AlertData.multisignedHash ms) ∈ outs2) :=
  ⟨by decide,
   units_notifications_after_backup_ack.2 stE
     [ServiceEvent.rmcMultisigned (mockEnv.hashAlert alertE),
      ServiceEvent.fromBackup (AlertData.multisignedHash (mockEnv.hashAlert alertE))]
     1 [] [ServiceOut.notify (ForkingNotification.units [])] (by decide) (by decide)⟩

theorem decodeNatLE_encodeNatLE (w : Nat) :
    ∀ (n : Nat) (rest : List Nat),
      decodeNatLE w (encodeNatLE w n ++ rest) = some (n % 256 ^ w, rest) := by
  induction w with
  | zero => intro n rest; simp [encodeNatLE, decodeNatLE, Nat.mod_one]
  | succ w ih =>
    intro n rest
    show (decodeNatLE w (encodeNatLE w (n / 256) ++ rest)).map
        (fun p => (n % 256 + 256 * p.1, p.2)) = some (n % 256 ^ (w + 1), rest)
    rw [ih, Option.map_some']
    rw [show n % 256 ^ (w + 1) = n % 256 + 256 * (n / 256 % 256 ^ w) from by
      rw [Nat.pow_succ']
      exact Nat.mod_mul]

theorem decodeNatLE_encodeNatLE_of_lt (w n : Nat) (rest : List Nat)
    (h : n < 256 ^ w) :
    decodeNatLE w (encodeNatLE w n ++ rest) = some (n, rest) := by
  rw [decodeNatLE_encodeNatLE, Nat.mod_eq_of_lt h]

theorem compactDec_compactEnc (n : Nat) (h : n < 2 ^ 30) (rest : List Nat) :
    compactDec (compactEnc n ++ rest) = some (n, rest) := by
  by_cases h0 : n < 64
  · rw [show compactEnc n = [n * 4] from by simp [compactEnc, h0], List.cons_append]
    simp only [compactDec]
    rw [if_pos (by omega)]
    simp only [List.nil_append]
    rw [show n * 4 / 4 = n from by omega]
  · by_cases h1 : n < 16384
    · rw [show compactEnc n = (n * 4 + 1) % 256 :: encodeNatLE 1 ((n * 4 + 1) / 256)
        from by simp [compactEnc, h0, h1, encodeNatLE], List.cons_append]
      simp only [compactDec]
      rw [if_neg (by omega), if_pos (by omega), decodeNatLE_encodeNatLE,
        Option.map_some']
      rw [show ((n * 4 + 1) % 256 + 256 * ((n * 4 + 1) / 256 % 256 ^ 1)) / 4 = n
        from by simp only [pow_one]; omega]
    · rw [show compactEnc n = (n * 4 + 2) % 256 :: encodeNatLE 3 ((n * 4 + 2) / 256)
        from by simp [compactEnc, h0, h1, encodeNatLE], List.cons_append]
      simp only [compactDec]
      rw [if_neg (by omega), if_neg (by omega), if_pos (by omega),
        decodeNatLE_encodeNatLE, Option.map_some']
      rw [show ((n * 4 + 2) % 256 + 256 * ((n * 4 + 2) / 256 % 256 ^ 3)) / 4 = n
        from by rw [show (256 : Nat) ^ 3 = 16777216 from by norm_num]; omega]

theorem decodeBool_encodeBool (b : Bool) (rest : List Nat) :
    decodeBool (encodeBool b ++ rest) = some (b, rest) := by
  cases b <;> simp [encodeBool, decodeBool]

theorem decodeMany_encode {α : Type} (enc1 : α → List Nat)
    (dec1 : List Nat → Option (α × List Nat)) (P : α → Prop)
    (hgood : ∀ a rest, P a → dec1 (enc1 a ++ rest) = some (a, rest)) :
    ∀ (l : List α) (rest : List Nat), (∀ a ∈ l, P a) →
      decodeMany dec1 l.length ((l.map enc1).flatten ++ rest) = some (l, rest) := by
  intro l
  induction l with
  | nil => intro rest _; simp [decodeMany]
  | cons a l ih =>
    intro rest hall
    rw [List.map_cons, List.flatten_cons, List.length_cons, List.append_assoc]
    show (dec1 (enc1 a ++ ((l.map enc1).flatten ++ rest))).bind
        (fun p => (decodeMany dec1 l.length p.2).map (fun q => (p.1 :: q.1, q.2))) =
      some (a :: l, rest)
    rw [hgood a _ (hall a (List.mem_cons_self _ _)), Option.some_bind,
      ih rest (fun x hx => hall x (List.mem_cons_of_mem _ hx)), Option.map_some']

theorem decodeList_encodeList {α : Type} (enc1 : α → List Nat)
    (dec1 : List Nat → Option (α × List Nat)) (P : α → Prop)
    (hgood : ∀ a rest, P a → dec1 (enc1 a ++ rest) = some (a, rest))
    (l : List α) (rest : List Nat) (hlen : l.length < 2 ^ 30)
    (hall : ∀ a ∈ l, P a) :
    decodeList dec1 (encodeList enc1 l ++ rest) = some (l, rest) := by
  unfold encodeList decodeList
  rw [List.append_assoc, compactDec_compactEnc _ hlen, Option.some_bind]
  exact decodeMany_encode enc1 dec1 P hgood l rest hall

theorem decodeUnit_encodeUnit (u : FullUnit) (rest : List Nat)
    (h : wfUnit u) :
    decodeUnit (encodeUnit u ++ rest) = some (u, rest) := by
  obtain ⟨h1, h2, h3, h4, h5, h6⟩ := h
  unfold encodeUnit decodeUnit
  rw [List.append_assoc, List.append_assoc, List.append_assoc, List.append_assoc,
    List.append_assoc]
  rw [decodeNatLE_encodeNatLE_of_lt 8 u.creator _ (lt_of_lt_of_le h1 (by norm_num)),
    Option.some_bind]
  rw [decodeNatLE_encodeNatLE_of_lt 2 u.round _ (lt_of_lt_of_le h2 (by norm_num)),
    Option.some_bind]
  rw [decodeList_encodeList encodeBool decodeBool (fun _ => True)
    (fun a r _ => decodeBool_encodeBool a r) _ _ h6 (fun _ _ => trivial),
    Option.some_bind]
  rw [decodeNatLE_encodeNatLE_of_lt 8 u.controlHash.combinedHash _
    (lt_of_lt_of_le h4 (by norm_num)), Option.some_bind]
  rw [decodeNatLE_encodeNatLE_of_lt 4 u.data _ (lt_of_lt_of_le h5 (by norm_num)),
    Option.some_bind]
  rw [decodeNatLE_encodeNatLE_of_lt 8 u.sessionId _ (lt_of_lt_of_le h3 (by norm_num)),
    Option.map_some']

theorem decodeSignedUnit_encodeSignedUnit (u : SignedUnit) (rest : List Nat)
    (h : wfSignedUnit u) :
    decodeSignedUnit (encodeSignedUnit u ++ rest) = some (u, rest) := by
  obtain ⟨hu, hs⟩ := h
  unfold encodeSignedUnit decodeSignedUnit
  rw [List.append_assoc, decodeUnit_encodeUnit _ _ hu, Option.some_bind,
    decodeNatLE_encodeNatLE_of_lt 8 u.signature _ (lt_of_lt_of_le hs (by norm_num)),
    Option.map_some']

theorem decodeAlert_encodeAlert (a : Alert) (rest : List Nat) (h : wfAlert a) :
    decodeAlert (encodeAlert a ++ rest) = some (a, rest) := by
  obtain ⟨h1, h2, h3, h4, h5⟩ := h
  unfold encodeAlert decodeAlert
  rw [List.append_assoc, List.append_assoc, List.append_assoc]
  rw [decodeNatLE_encodeNatLE_of_lt 8 a.sender _ (lt_of_lt_of_le h1 (by norm_num)),
    Option.some_bind]
  rw [decodeSignedUnit_encodeSignedUnit _ _ h2, Option.some_bind]
  rw [decodeSignedUnit_encodeSignedUnit _ _ h3, Option.some_bind]
  rw [decodeList_encodeList encodeSignedUnit decodeSignedUnit wfSignedUnit
    decodeSignedUnit_encodeSignedUnit _ _ h4 h5, Option.map_some']

theorem decodeRmcMsg_encodeRmcMsg (m : RmcMsg) (rest : List Nat)
    (h : wfRmcMsg m) :
    decodeRmcMsg (encodeRmcMsg m ++ rest) = some (m, rest) := by
  obtain ⟨h1, h2⟩ := h
  cases m with
  | mk hash isC sd =>
    cases isC
    · show decodeRmcMsg (0 :: (encodeNatLE 8 hash ++ (encodeNatLE 8 sd ++ rest))) = _
      simp only [decodeRmcMsg]
      rw [if_pos (by simp)]
      rw [decodeNatLE_encodeNatLE_of_lt 8 hash _ (lt_of_lt_of_le h1 (by norm_num)),
        Option.some_bind]
      rw [decodeNatLE_encodeNatLE_of_lt 8 sd _ (lt_of_lt_of_le h2 (by norm_num)),
        Option.map_some']
      simp
    · show decodeRmcMsg (1 :: (encodeNatLE 8 hash ++ (encodeNatLE 8 sd ++ rest))) = _
      simp only [decodeRmcMsg]
      rw [if_pos (by simp)]
      rw [decodeNatLE_encodeNatLE_of_lt 8 hash _ (lt_of_lt_of_le h1 (by norm_num)),
        Option.some_bind]
      rw [decodeNatLE_encodeNatLE_of_lt 8 sd _ (lt_of_lt_of_le h2 (by norm_num)),
        Option.map_some']
      simp

/-- C8: decoding the canonical encoding of any representable
`AlertMessage` yields the original value with the remaining input intact,
in particular on exactly its own encoding, and the encoding is injective
(two well-formed messages with the same canonical encoding are equal), so
the hash of the canonical encoding is the same for every participant and
determines the message. -/
theorem alertMessage_codec_roundtrip (m : AlertMessage) (hm : wfAlertMessage m) :
    (∀ rest, decodeAlertMessage (encodeAlertMessage m ++ rest) = some (m, rest)) ∧
    decodeAlertMessage (encodeAlertMessage m) = some (m, []) ∧
    (∀ m2, wfAlertMessage m2 →
      encodeAlertMessage m = encodeAlertMessage m2 → m = m2) := by
  have main : ∀ (m : AlertMessage), wfAlertMessage m → ∀ rest,
      decodeAlertMessage (encodeAlertMessage m ++ rest) = some (m, rest) := by
    intro m hm rest
    cases m with
    | forkAlert a s =>
      obtain ⟨ha, hs⟩ := hm
      show decodeAlertMessage (0 :: (encodeAlert a ++ encodeNatLE 8 s ++ rest)) = _
      simp only [decodeAlertMessage]
      rw [if_pos trivial]
      rw [List.append_assoc]
      rw [decodeAlert_encodeAlert _ _ ha, Option.some_bind]
      rw [decodeNatLE_encodeNatLE_of_lt 8 s _ (lt_of_lt_of_le hs (by norm_num)),
        Option.map_some']
    | rmcMessage s m2 =>
      obtain ⟨hs, hm2⟩ := hm
      show decodeAlertMessage (1 :: (encodeNatLE 8 s ++ (encodeRmcMsg m2 ++ rest))) = _
      simp only [decodeAlertMessage]
      rw [if_neg (by omega)]
      rw [decodeNatLE_encodeNatLE_of_lt 8 s _ (lt_of_lt_of_le hs (by norm_num)),
        Option.some_bind]
      rw [decodeRmcMsg_encodeRmcMsg _ _ hm2, Option.map_some']
      simp
    | alertRequest s hsh =>
      obtain ⟨hs, hh⟩ := hm
      show decodeAlertMessage (2 :: (encodeNatLE 8 s ++ (encodeNatLE 8 hsh ++ rest))) = _
      simp only [decodeAlertMessage]
      rw [if_neg (by omega), if_neg (by omega)]
      rw [decodeNatLE_encodeNatLE_of_lt 8 s _ (lt_of_lt_of_le hs (by norm_num)),
        Option.some_bind]
      rw [decodeNatLE_encodeNatLE_of_lt 8 hsh _ (lt_of_lt_of_le hh (by norm_num)),
        Option.map_some']
      simp
  refine ⟨main m hm, ?_, ?_⟩
  · have := main m hm []
    rwa [List.append_nil] at this
  · intro m2 hm2 henc
    have e1 := main m hm []
    rw [List.append_nil] at e1
    have e2 := main m2 hm2 []
    rw [List.append_nil] at e2
    rw [henc, e2] at e1
    exact (Prod.mk.injEq _ _ _ _ ▸ Option.some_inj.mp e1).1.symm

/-- Closed instance of `alertMessage_codec_roundtrip`: a concrete alert
request decodes from its own encoding. -/
theorem alertMessage_codec_roundtrip_witness :
    decodeAlertMessage (encodeAlertMessage (AlertMessage.alertRequest 3 42)) =
      some (AlertMessage.alertRequest 3 42, []) :=
  (alertMessage_codec_roundtrip (AlertMessage.alertRequest 3 42) (by decide)).2.1
